import Mathlib

/-!
# Verification of the EncoreRafflerV5 raffle engine

Shallow embedding of the Solidity contract `EncoreRafflerV5` (the VRF 2.5
variant): a ledger/settlement engine for raffles with three raffle types
(DonationBased, ProfitBased, IncentiveBased), two modes (pool vs traditional),
EIP-712 authorization, and a Chainlink-VRF randomness callback.

Modelling conventions:
* `uint256` is modelled as `Nat`.  Solidity ^0.8 reverts on arithmetic
  underflow; every subtraction in the contract is therefore guarded here by an
  explicit check that throws `Err.Panic` (matching the Solidity `Panic(0x11)`
  revert).  Overflow of additions happens only at `2^256`, which no reachable
  execution of this contract approaches; additions are modelled unchecked.
* Addresses are `Nat`; address `0` is the zero address.
* ECDSA/EIP-712 signature verification is abstracted by a boolean parameter
  `sigOk` supplied with each call, standing for
  `hash.recover(signature) == appServerSigner`.  Nonce bookkeeping
  (`nonces[msg.sender]++` on every verified path) is kept in the state.
* The ERC20 payment token is modelled by the contract's own token balance
  (`balance`): `transferFrom(user, this, a)` adds `a` (the allowance check of
  the contract is explicit; a user with insufficient funds would make the
  whole call revert, i.e. contribute no step), and `transfer(to, a)` subtracts
  `a`, failing with `TransferFailed` when the contract holds less than `a`.
* The VRF coordinator is modelled as the fresh-request-id counter
  `nextRequestId`; the callback `fulfillRandomWords` is a separate operation
  (the coordinator delivers one random word, `NUM_WORDS = 1`).
* A Solidity revert has no observable effect; every operation returns
  `Except Err (CState × List Transfer)` where an `.error` result stands for a
  revert (state discarded) and the `List Transfer` records the token movements
  of a successful call, in the order the contract performs them.
-/

namespace Encore

/-- Raffle behaviour variants (`enum RaffleType`). -/
inductive RaffleType where
  | DonationBased
  | ProfitBased
  | IncentiveBased
deriving DecidableEq, Repr

/-- Raffle lifecycle states (`enum RaffleStatus`). -/
inductive RaffleStatus where
  | Inactive
  | Active
  | Closed
  | AwaitingVRF
  | Finalized
deriving DecidableEq, Repr

/-- The `Raffle` struct.  The Solidity `mapping(address => bool) hasEntered`
is modelled as the list `members` of addresses whose flag is `true`. -/
structure Raffle where
  id : Nat
  organizer : Nat
  status : RaffleStatus
  raffleType : RaffleType
  entryCost : Nat
  incentiveAmount : Nat
  totalCollected : Nat
  entryLimit : Nat
  entryCount : Nat
  deadline : Nat
  targetAmount : Nat
  isPool : Bool
  vrfRequestId : Nat
  winnerIndex : Nat
  payoutAddress : Nat
  members : List Nat
deriving DecidableEq, Repr

instance : Inhabited Raffle :=
  ⟨{ id := 0, organizer := 0, status := .Inactive, raffleType := .DonationBased,
     entryCost := 0, incentiveAmount := 0, totalCollected := 0, entryLimit := 0,
     entryCount := 0, deadline := 0, targetAmount := 0, isPool := false,
     vrfRequestId := 0, winnerIndex := 0, payoutAddress := 0, members := [] }⟩

/-- The `VRFRequest` struct correlating a coordinator request to a raffle. -/
structure VRFRequest where
  raffleId : Nat
  fulfilled : Bool
deriving DecidableEq, Repr

/-- Contract storage.  `raffles` holds the raffle with id `i+1` at index `i`
(`nextRaffleId` starts at 1 and ids are allocated sequentially);
`vrfRequests` is the request map as an association list where a more recent
binding for a key shadows older ones; `nonces` models
`mapping(address => uint256) nonces`; `balance` is the contract's holding of
the payment token; `nextRequestId` models the coordinator's fresh id source. -/
structure CState where
  owner : Nat
  appServerSigner : Nat
  paused : Bool
  raffles : List Raffle
  vrfRequests : List (Nat × VRFRequest)
  nonces : List (Nat × Nat)
  balance : Nat
  nextRequestId : Nat
deriving DecidableEq, Repr

/-- The custom errors of the contract, plus `Panic` for a Solidity
arithmetic revert. -/
inductive Err where
  | InvalidSigner
  | InvalidSignature
  | RaffleNotActive
  | DeadlineNotPassed
  | GracePeriodNotPassed
  | AlreadyEntered
  | InvalidRaffleType
  | TransferFailed
  | OnlyOwner
  | InvalidRaffleId
  | InsufficientAllowance
  | InvalidAmount
  | ZeroAddress
  | ContractPaused
  | VRFRequestNotFound
  | RaffleNotAwaitingVRF
  | CannotEndPoolEarly
  | InvalidRefundConditions
  | Panic
deriving DecidableEq, Repr

/-- A token movement performed by a successful call:
`tin source amount` is `paymentToken.transferFrom(source, address(this), amount)`,
`tout dest amount` is `paymentToken.transfer(dest, amount)`. -/
inductive Transfer where
  | tin (source amount : Nat)
  | tout (dest amount : Nat)
deriving DecidableEq, Repr

/-- `uint256 public constant REFUND_GRACE_PERIOD = 3600;` -/
def REFUND_GRACE_PERIOD : Nat := 3600

/-- `nextRaffleId` (ids allocated so far are `1 .. raffles.length`). -/
def CState.nextRaffleId (s : CState) : Nat := s.raffles.length + 1

/-- Raffle lookup by id (`raffles[_raffleId]`); unallocated ids (including 0)
yield the default (all-zero, `Inactive`) record exactly as an untouched
Solidity mapping slot does. -/
def getRaffle (s : CState) (i : Nat) : Raffle :=
  if i = 0 then default else (s.raffles[i - 1]?).getD default

/-- Store an updated raffle record back at its id. -/
def setRaffle (s : CState) (i : Nat) (r : Raffle) : CState :=
  { s with raffles := s.raffles.set (i - 1) r }

/-- VRF request lookup (`vrfRequests[_requestId]`); absent keys yield the
zero record `{raffleId := 0, fulfilled := false}`. -/
def lookupReq (s : CState) (id : Nat) : VRFRequest :=
  (s.vrfRequests.lookup id).getD ⟨0, false⟩

/-- `nonces[a]`. -/
def getNonce (s : CState) (a : Nat) : Nat := (s.nonces.lookup a).getD 0

/-- `nonces[a]++` (the incremented binding shadows the old one). -/
def bumpNonce (s : CState) (a : Nat) : CState :=
  { s with nonces := (a, getNonce s a + 1) :: s.nonces }

/-- `raffle.hasEntered[u]`. -/
def hasEntered (r : Raffle) (u : Nat) : Prop := u ∈ r.members

instance (r : Raffle) (u : Nat) : Decidable (hasEntered r u) :=
  inferInstanceAs (Decidable (u ∈ r.members))

/-- `_raffleId == 0 || _raffleId >= nextRaffleId` (the `validRaffleId`
modifier's revert condition). -/
def badRaffleId (s : CState) (i : Nat) : Prop := i = 0 ∨ s.nextRaffleId ≤ i

instance (s : CState) (i : Nat) : Decidable (badRaffleId s i) :=
  inferInstanceAs (Decidable (i = 0 ∨ s.nextRaffleId ≤ i))

/-- `createRaffle`.  `now` is `block.timestamp`; `sigOk` abstracts the EIP-712
check of the App Server signature over the creation message. -/
def createRaffle (s : CState) (caller : Nat) (rt : RaffleType)
    (entryCost incentiveAmount entryLimit deadline targetAmount : Nat)
    (isPool : Bool) (payoutAddress : Nat) (sigOk : Bool) (now : Nat) :
    Except Err (CState × List Transfer) :=
  if s.paused then .error .ContractPaused
  else if payoutAddress = 0 then .error .ZeroAddress
  else if entryCost = 0 then .error .InvalidAmount
  else if deadline ≤ now then .error .InvalidAmount
  else if rt = .IncentiveBased ∧ (incentiveAmount = 0 ∨ entryCost ≤ incentiveAmount) then
    .error .InvalidAmount
  else if rt = .DonationBased ∧ entryLimit = 0 then .error .InvalidAmount
  else if isPool = true ∧ targetAmount = 0 then .error .InvalidAmount
  else if sigOk = false then .error .InvalidSignature
  else
    let s1 := bumpNonce s caller
    let rid := s1.nextRaffleId
    let r : Raffle :=
      { id := rid, organizer := caller, status := .Active, raffleType := rt,
        entryCost := entryCost, incentiveAmount := incentiveAmount,
        totalCollected := 0, entryLimit := entryLimit, entryCount := 0,
        deadline := deadline, targetAmount := targetAmount, isPool := isPool,
        vrfRequestId := 0, winnerIndex := 0, payoutAddress := payoutAddress,
        members := [] }
    .ok ({ s1 with raffles := s1.raffles ++ [r] }, [])

/-- `enterRaffle`.  `allowance` is `paymentToken.allowance(msg.sender, this)`. -/
def enterRaffle (s : CState) (caller raffleId allowance : Nat) :
    Except Err (CState × List Transfer) :=
  if s.paused then .error .ContractPaused
  else if badRaffleId s raffleId then .error .InvalidRaffleId
  else
    let r := getRaffle s raffleId
    if r.status ≠ .Active then .error .RaffleNotActive
    else if hasEntered r caller then .error .AlreadyEntered
    else if r.raffleType = .IncentiveBased then .error .InvalidRaffleType
    else if allowance < r.entryCost then .error .InsufficientAllowance
    else
      let r1 := { r with members := caller :: r.members,
                         entryCount := r.entryCount + 1,
                         totalCollected := r.totalCollected + r.entryCost }
      let shouldClose :=
        (r1.raffleType = .DonationBased ∧ r1.entryLimit ≤ r1.entryCount)
          ∨ (r1.isPool = true ∧ r1.targetAmount ≤ r1.totalCollected)
      let r2 := if shouldClose then { r1 with status := .Closed } else r1
      let s1 := setRaffle s raffleId r2
      .ok ({ s1 with balance := s1.balance + r.entryCost },
           [.tin caller r.entryCost])

/-- `joinIncentiveRaffle`.  Splits `entryCost` into the raffle portion
(credited) and `incentiveAmount` (forwarded to `_paymentAddress`). -/
def joinIncentiveRaffle (s : CState) (caller raffleId paymentAddress : Nat)
    (sigOk : Bool) (allowance : Nat) : Except Err (CState × List Transfer) :=
  if s.paused then .error .ContractPaused
  else if badRaffleId s raffleId then .error .InvalidRaffleId
  else if paymentAddress = 0 then .error .ZeroAddress
  else
    let r := getRaffle s raffleId
    if r.status ≠ .Active then .error .RaffleNotActive
    else if hasEntered r caller then .error .AlreadyEntered
    else if r.raffleType ≠ .IncentiveBased then .error .InvalidRaffleType
    else if sigOk = false then .error .InvalidSignature
    else if allowance < r.entryCost then .error .InsufficientAllowance
    else if r.entryCost < r.incentiveAmount then .error .Panic
    else
      let raffleAmount := r.entryCost - r.incentiveAmount
      let r1 := { r with members := caller :: r.members,
                         entryCount := r.entryCount + 1,
                         totalCollected := r.totalCollected + raffleAmount }
      let r2 := if r1.isPool = true ∧ r1.targetAmount ≤ r1.totalCollected
                then { r1 with status := .Closed } else r1
      let s1 := bumpNonce (setRaffle s raffleId r2) caller
      .ok ({ s1 with balance := s1.balance + r.entryCost - r.incentiveAmount },
           [.tin caller r.entryCost, .tout paymentAddress r.incentiveAmount])

/-- `refund`.  Pool raffles refund any time while `Active`; traditional
raffles only once `block.timestamp > deadline + REFUND_GRACE_PERIOD`. -/
def refund (s : CState) (caller raffleId now : Nat) :
    Except Err (CState × List Transfer) :=
  if s.paused then .error .ContractPaused
  else if badRaffleId s raffleId then .error .InvalidRaffleId
  else
    let r := getRaffle s raffleId
    if ¬ hasEntered r caller then .error .AlreadyEntered
    else if r.isPool = true ∧ r.status ≠ .Active then .error .InvalidRefundConditions
    else if r.isPool = false ∧ r.status ≠ .Active then .error .RaffleNotActive
    else if r.isPool = false ∧ now ≤ r.deadline + REFUND_GRACE_PERIOD then
      .error .GracePeriodNotPassed
    else if r.raffleType = .IncentiveBased ∧ r.entryCost < r.incentiveAmount then
      .error .Panic
    else
      let refundAmount := if r.raffleType = .IncentiveBased
                          then r.entryCost - r.incentiveAmount else r.entryCost
      if r.entryCount = 0 then .error .Panic
      else if r.totalCollected < refundAmount then .error .Panic
      else
        let r1 := { r with members := r.members.erase caller,
                           entryCount := r.entryCount - 1,
                           totalCollected := r.totalCollected - refundAmount }
        let s1 := setRaffle s raffleId r1
        if s1.balance < refundAmount then .error .TransferFailed
        else .ok ({ s1 with balance := s1.balance - refundAmount },
                  [.tout caller refundAmount])

/-- The state update of `_finalizePoolRaffle` performed before the prize
transfer: cache the prize, set `Finalized`, zero `totalCollected`. -/
def poolFinalUpdate (r : Raffle) : Raffle :=
  { r with status := .Finalized, totalCollected := 0 }

/-- `_finalizePoolRaffle`: the prize transfer executes against the state in
which the raffle is already `Finalized` with `totalCollected = 0`. -/
def finalizePoolRaffle (s : CState) (raffleId : Nat) :
    Except Err (CState × List Transfer) :=
  let r := getRaffle s raffleId
  let prizeAmount := r.totalCollected
  let s1 := setRaffle s raffleId (poolFinalUpdate r)
  if 0 < prizeAmount then
    if s1.balance < prizeAmount then .error .TransferFailed
    else .ok ({ s1 with balance := s1.balance - prizeAmount },
              [.tout r.payoutAddress prizeAmount])
  else .ok (s1, [])

/-- `_requestVRF`: with no entries the raffle is finalized immediately
(winner index stays 0, no payout); otherwise a fresh coordinator request id
is recorded and the raffle moves to `AwaitingVRF`. -/
def requestVRF (s : CState) (raffleId : Nat) : CState × List Transfer :=
  let r := getRaffle s raffleId
  if r.entryCount = 0 then
    (setRaffle s raffleId { r with status := .Finalized }, [])
  else
    let requestId := s.nextRequestId
    let r1 := { r with vrfRequestId := requestId, status := .AwaitingVRF }
    ({ setRaffle s raffleId r1 with
        vrfRequests := (requestId, ⟨raffleId, false⟩) :: s.vrfRequests,
        nextRequestId := s.nextRequestId + 1 }, [])

/-- `endRaffle`.  The App Server may end unconditionally on timing; the
organizer is gated by mode-specific timing and must present an App-Server
countersignature (`sigOk`); anyone else is rejected. -/
def endRaffle (s : CState) (caller raffleId : Nat) (sigOk : Bool) (now : Nat) :
    Except Err (CState × List Transfer) :=
  if s.paused then .error .ContractPaused
  else if badRaffleId s raffleId then .error .InvalidRaffleId
  else
    let r := getRaffle s raffleId
    if r.status ≠ .Active ∧ r.status ≠ .Closed then .error .RaffleNotActive
    else if caller ≠ s.appServerSigner ∧ caller ≠ r.organizer then .error .InvalidSigner
    else if caller ≠ s.appServerSigner ∧ r.isPool = true ∧
            r.totalCollected < r.targetAmount ∧ now < r.deadline then
      .error .CannotEndPoolEarly
    else if caller ≠ s.appServerSigner ∧ r.isPool = false ∧ now < r.deadline then
      .error .DeadlineNotPassed
    else if caller = r.organizer ∧ sigOk = false then .error .InvalidSignature
    else
      let s1 := if caller = r.organizer then bumpNonce s caller else s
      if r.isPool then finalizePoolRaffle s1 raffleId
      else .ok (requestVRF s1 raffleId)

/-- The state update of `fulfillRandomWords` performed before the prize
transfer: record the winner, set `Finalized`, zero `totalCollected`. -/
def vrfFinalUpdate (r : Raffle) (winnerIndex : Nat) : Raffle :=
  { r with winnerIndex := winnerIndex, status := .Finalized, totalCollected := 0 }

/-- `fulfillRandomWords` (the Chainlink callback; only the coordinator can
invoke it, with one random word).  A request already marked `fulfilled` is a
silent no-op; an unknown id reverts; a raffle no longer `AwaitingVRF` is a
defensive revert. -/
def fulfillRandomWords (s : CState) (requestId randomWord : Nat) :
    Except Err (CState × List Transfer) :=
  let req := lookupReq s requestId
  if req.raffleId = 0 then .error .VRFRequestNotFound
  else if req.fulfilled then .ok (s, [])
  else
    let s1 := { s with vrfRequests := (requestId, ⟨req.raffleId, true⟩) :: s.vrfRequests }
    let r := getRaffle s1 req.raffleId
    if r.status ≠ .AwaitingVRF then .error .RaffleNotAwaitingVRF
    else if r.entryCount = 0 then .error .Panic
    else
      let winnerIndex := randomWord % r.entryCount + 1
      let prizeAmount := r.totalCollected
      let s2 := setRaffle s1 req.raffleId (vrfFinalUpdate r winnerIndex)
      if 0 < prizeAmount then
        if s2.balance < prizeAmount then .error .TransferFailed
        else .ok ({ s2 with balance := s2.balance - prizeAmount },
                  [.tout r.payoutAddress prizeAmount])
      else .ok (s2, [])

/-- `pause` (owner only). -/
def pause (s : CState) (caller : Nat) : Except Err CState :=
  if caller ≠ s.owner then .error .OnlyOwner else .ok { s with paused := true }

/-- `unpause` (owner only). -/
def unpause (s : CState) (caller : Nat) : Except Err CState :=
  if caller ≠ s.owner then .error .OnlyOwner else .ok { s with paused := false }

/-- `updateAppServerSigner` (owner only, nonzero address). -/
def updateAppServerSigner (s : CState) (caller newSigner : Nat) : Except Err CState :=
  if caller ≠ s.owner then .error .OnlyOwner
  else if newSigner = 0 then .error .ZeroAddress
  else .ok { s with appServerSigner := newSigner }

/-- One successful externally-triggered transition of the contract.  Reverted
calls change nothing and therefore contribute no step.  `donate` models a
direct ERC20 transfer of tokens to the contract address, which anyone can
perform without touching contract storage. -/
inductive Step : CState → CState → Prop where
  | create {s s' : CState} {tl : List Transfer}
      (caller : Nat) (rt : RaffleType) (ec ia el dl ta : Nat) (ip : Bool)
      (pa : Nat) (sigOk : Bool) (now : Nat)
      (h : createRaffle s caller rt ec ia el dl ta ip pa sigOk now = .ok (s', tl)) :
      Step s s'
  | enter {s s' : CState} {tl : List Transfer} (caller rid allowance : Nat)
      (h : enterRaffle s caller rid allowance = .ok (s', tl)) : Step s s'
  | join {s s' : CState} {tl : List Transfer} (caller rid pa : Nat)
      (sigOk : Bool) (allowance : Nat)
      (h : joinIncentiveRaffle s caller rid pa sigOk allowance = .ok (s', tl)) :
      Step s s'
  | refundStep {s s' : CState} {tl : List Transfer} (caller rid now : Nat)
      (h : refund s caller rid now = .ok (s', tl)) : Step s s'
  | endStep {s s' : CState} {tl : List Transfer} (caller rid : Nat)
      (sigOk : Bool) (now : Nat)
      (h : endRaffle s caller rid sigOk now = .ok (s', tl)) : Step s s'
  | fulfill {s s' : CState} {tl : List Transfer} (reqId rw : Nat)
      (h : fulfillRandomWords s reqId rw = .ok (s', tl)) : Step s s'
  | pauseStep {s s' : CState} (caller : Nat) (h : pause s caller = .ok s') : Step s s'
  | unpauseStep {s s' : CState} (caller : Nat) (h : unpause s caller = .ok s') : Step s s'
  | updateSigner {s s' : CState} (caller ns : Nat)
      (h : updateAppServerSigner s caller ns = .ok s') : Step s s'
  | donate {s : CState} (amt : Nat) : Step s { s with balance := s.balance + amt }

/-- The constructor-produced state (the constructor rejects zero addresses
for the signer; the contract may already hold `balance0` tokens sent to its
address). -/
def initState (owner appSigner balance0 : Nat) : CState :=
  { owner := owner, appServerSigner := appSigner, paused := false,
    raffles := [], vrfRequests := [], nonces := [], balance := balance0,
    nextRequestId := 1 }

/-- A contract state reachable from some deployment by successful calls. -/
def Reachable (s : CState) : Prop :=
  ∃ o a b, Relation.ReflTransGen Step (initState o a b) s

/-! ## The state invariant

`raffleWF` is the per-raffle part: membership is a set (`Nodup`),
`entryCount` counts the members, a live (non-`Finalized`) raffle escrows
exactly `entryCount` times the per-entry raffle portion, a `Finalized` raffle
escrows nothing, and incentive raffles satisfy the creation-time bound
`incentiveAmount < entryCost`.  `reqWF` ties every live VRF request record
to its raffle: an unfulfilled request points at a raffle that is still
`AwaitingVRF` and that stores this request id.  `stateWF` adds solvency:
the contract's token balance covers the total escrow. -/

/-- The raffle-portion of one entry: `entryCost - incentiveAmount` for
incentive raffles, the full `entryCost` otherwise. -/
def perEntryAmount (r : Raffle) : Nat :=
  if r.raffleType = .IncentiveBased then r.entryCost - r.incentiveAmount
  else r.entryCost

/-- The spec's "sum over current members of their raffle-portion
contribution" for one raffle. -/
def membersRafflePortionSum (r : Raffle) : Nat :=
  (r.members.map (fun _ => perEntryAmount r)).sum

def raffleWF (r : Raffle) : Prop :=
  r.members.Nodup ∧
  r.entryCount = r.members.length ∧
  (r.status ≠ .Finalized → r.totalCollected = r.entryCount * perEntryAmount r) ∧
  (r.status = .Finalized → r.totalCollected = 0) ∧
  (r.raffleType = .IncentiveBased → r.incentiveAmount < r.entryCost) ∧
  r.status ≠ .Inactive

/-- Sum of `totalCollected` over all raffles. -/
def escrowTotal (s : CState) : Nat := (s.raffles.map Raffle.totalCollected).sum

def reqWF (s : CState) : Prop :=
  ∀ id req, s.vrfRequests.lookup id = some req →
    req.raffleId ≠ 0 ∧ req.raffleId ≤ s.raffles.length ∧
    (req.fulfilled = false →
      (getRaffle s req.raffleId).status = .AwaitingVRF ∧
      (getRaffle s req.raffleId).vrfRequestId = id)

def stateWF (s : CState) : Prop :=
  (∀ r ∈ s.raffles, raffleWF r) ∧ escrowTotal s ≤ s.balance ∧ reqWF s

/-! ## Concrete executions

Small concrete runs of the engine, used below to witness reachability of the
states that settle the claims. -/

/-- Post-state of a successful operation (fallback value is irrelevant: it is
only used on runs proved successful). -/
def runOk (x : Except Err (CState × List Transfer)) (dflt : CState) : CState :=
  match x with
  | .ok p => p.1
  | .error _ => dflt

/-- Deployment: owner 1, App Server signer 2, no tokens held. -/
def cA0 : CState := initState 1 2 0

/-- Address 3 creates a pool ProfitBased raffle: entryCost 100, target 500,
deadline 1000, payout address 9. -/
def cA1 : CState :=
  runOk (createRaffle cA0 3 .ProfitBased 100 0 0 1000 500 true 9 true 10) cA0

/-- Address 4 enters raffle 1 (allowance 100). -/
def cA2 : CState := runOk (enterRaffle cA1 4 1 100) cA1

/-- The App Server (address 2) ends raffle 1: pool finalization. -/
def cA3 : CState := runOk (endRaffle cA2 2 1 false 10) cA2

/-- Deployment for the traditional (VRF) scenario. -/
def cB0 : CState := initState 1 2 0

/-- Address 3 creates a traditional DonationBased raffle: entryCost 100,
entryLimit 2, deadline 1000, payout address 9. -/
def cB1 : CState :=
  runOk (createRaffle cB0 3 .DonationBased 100 0 2 1000 0 false 9 true 10) cB0

/-- Address 4 enters (1 of 2). -/
def cB2 : CState := runOk (enterRaffle cB1 4 1 100) cB1

/-- Address 5 enters (2 of 2): the raffle auto-closes. -/
def cB3 : CState := runOk (enterRaffle cB2 5 1 100) cB2

/-- The App Server ends raffle 1: VRF request 1 is issued, AwaitingVRF. -/
def cB4 : CState := runOk (endRaffle cB3 2 1 false 10) cB3

/-- The coordinator fulfills request 1 with random word 7. -/
def cB5 : CState := runOk (fulfillRandomWords cB4 1 7) cB4

/-- Deployment for the incentive scenario. -/
def cC0 : CState := initState 1 2 0

/-- Address 3 creates a traditional IncentiveBased raffle: entryCost 100,
incentiveAmount 20, deadline 1000, payout address 9. -/
def cC1 : CState :=
  runOk (createRaffle cC0 3 .IncentiveBased 100 20 0 1000 0 false 9 true 10) cC0

/-- Address 4 joins with incentive destination 8: 80 escrowed, 20 forwarded. -/
def cC2 : CState := runOk (joinIncentiveRaffle cC1 4 1 8 true 100) cC1

/-- Address 4 is refunded at time 5000 (past deadline 1000 + grace 3600). -/
def cC3 : CState := runOk (refund cC2 4 1 5000) cC2

/-- The App Server signer (address 2) itself creates a traditional raffle:
organizer = appServerSigner. -/
def cD1 : CState :=
  runOk (createRaffle cA0 2 .ProfitBased 100 0 0 1000 0 false 9 true 10) cA0


/-! ## Basic list bookkeeping lemmas -/

theorem sum_set_nat (ns : List Nat) (j : Nat) (v : Nat) (h : j < ns.length) :
    (ns.set j v).sum + ns[j] = ns.sum + v := by
  induction ns generalizing j with
  | nil => simp at h
  | cons a t ih =>
    cases j with
    | zero => simp [List.set]; omega
    | succ n =>
      have hn : n < t.length := by simpa using h
      have := ih n hn
      simp only [List.set, List.sum_cons, List.getElem_cons_succ]
      omega

theorem get_le_sum_nat (ns : List Nat) (j : Nat) (h : j < ns.length) :
    ns[j] ≤ ns.sum := by
  induction ns generalizing j with
  | nil => simp at h
  | cons a t ih =>
    cases j with
    | zero => simp
    | succ n =>
      have hn : n < t.length := by simpa using h
      have := ih n hn
      simp only [List.getElem_cons_succ, List.sum_cons]
      omega

theorem getRaffle_some {s : CState} {i : Nat} (h0 : i ≠ 0)
    (h1 : i ≤ s.raffles.length) :
    s.raffles[i - 1]? = some (getRaffle s i) := by
  have hlt : i - 1 < s.raffles.length := by omega
  simp [getRaffle, h0, List.getElem?_eq_getElem hlt]

theorem getRaffle_mem {s : CState} {i : Nat} (h0 : i ≠ 0)
    (h1 : i ≤ s.raffles.length) : getRaffle s i ∈ s.raffles := by
  have hlt : i - 1 < s.raffles.length := by omega
  have heq : getRaffle s i = s.raffles[i - 1] := by
    simp [getRaffle, h0, List.getElem?_eq_getElem hlt]
  rw [heq]
  exact List.getElem_mem hlt

theorem getRaffle_setRaffle_self {s : CState} {i : Nat} {r : Raffle}
    (h0 : i ≠ 0) (h1 : i ≤ s.raffles.length) :
    getRaffle (setRaffle s i r) i = r := by
  have hlt : i - 1 < s.raffles.length := by omega
  simp [getRaffle, h0, setRaffle, List.getElem?_set_self hlt]

theorem getRaffle_setRaffle_ne {s : CState} {i j : Nat} {r : Raffle}
    (hne : i ≠ j) (hi : i ≠ 0) (hj : j ≠ 0) :
    getRaffle (setRaffle s i r) j = getRaffle s j := by
  have : i - 1 ≠ j - 1 := by omega
  simp [getRaffle, hj, setRaffle, List.getElem?_set_ne this]

theorem getRaffle_congr {s s' : CState} (h : s'.raffles = s.raffles) (i : Nat) :
    getRaffle s' i = getRaffle s i := by
  simp [getRaffle, h]

theorem raffleWF_get {s : CState} {i : Nat}
    (hall : ∀ r ∈ s.raffles, raffleWF r) (h0 : i ≠ 0)
    (h1 : i ≤ s.raffles.length) : raffleWF (getRaffle s i) :=
  hall _ (getRaffle_mem h0 h1)

theorem rafflesWF_set {s : CState} {i : Nat} {r' : Raffle}
    (hall : ∀ r ∈ s.raffles, raffleWF r) (hr' : raffleWF r') :
    ∀ r ∈ (setRaffle s i r').raffles, raffleWF r := by
  intro r hm
  rcases List.mem_or_eq_of_mem_set hm with h | h
  · exact hall r h
  · exact h ▸ hr'

theorem escrow_setRaffle {s : CState} {i : Nat} {r : Raffle}
    (h0 : i ≠ 0) (h1 : i ≤ s.raffles.length) :
    escrowTotal (setRaffle s i r) + (getRaffle s i).totalCollected
      = escrowTotal s + r.totalCollected := by
  have hlt : i - 1 < s.raffles.length := by omega
  have hmlt : i - 1 < (s.raffles.map Raffle.totalCollected).length := by
    simpa using hlt
  have hget : (s.raffles.map Raffle.totalCollected)[i - 1] =
      (getRaffle s i).totalCollected := by
    rw [List.getElem_map]
    simp [getRaffle, h0, List.getElem?_eq_getElem hlt]
  have := sum_set_nat (s.raffles.map Raffle.totalCollected) (i - 1)
    r.totalCollected hmlt
  rw [hget] at this
  calc escrowTotal (setRaffle s i r) + (getRaffle s i).totalCollected
      = ((s.raffles.map Raffle.totalCollected).set (i - 1)
          r.totalCollected).sum + (getRaffle s i).totalCollected := by
        simp [escrowTotal, setRaffle, List.map_set]
    _ = escrowTotal s + r.totalCollected := this

theorem collected_le_escrow {s : CState} {i : Nat}
    (h0 : i ≠ 0) (h1 : i ≤ s.raffles.length) :
    (getRaffle s i).totalCollected ≤ escrowTotal s := by
  have hlt : i - 1 < s.raffles.length := by omega
  have hmlt : i - 1 < (s.raffles.map Raffle.totalCollected).length := by
    simpa using hlt
  have hget : (s.raffles.map Raffle.totalCollected)[i - 1] =
      (getRaffle s i).totalCollected := by
    rw [List.getElem_map]
    simp [getRaffle, h0, List.getElem?_eq_getElem hlt]
  have := get_le_sum_nat (s.raffles.map Raffle.totalCollected) (i - 1) hmlt
  rw [hget] at this
  exact this

theorem reqWF_congr {s s' : CState} (h1 : s'.vrfRequests = s.vrfRequests)
    (h2 : s'.raffles = s.raffles) (h : reqWF s) : reqWF s' := by
  intro id req hl
  rw [h1] at hl
  obtain ⟨ha, hb, hc⟩ := h id req hl
  refine ⟨ha, by rw [h2]; exact hb, ?_⟩
  intro hf
  rw [getRaffle_congr h2]
  exact hc hf

theorem reqWF_setRaffle {s : CState} {i : Nat} {r' : Raffle}
    (h : reqWF s) (h0 : i ≠ 0)
    (hstat : (getRaffle s i).status ≠ .AwaitingVRF) :
    reqWF (setRaffle s i r') := by
  intro id req hl
  obtain ⟨hne, hle, hful⟩ := h id req hl
  refine ⟨hne, by simpa [setRaffle] using hle, ?_⟩
  intro hf
  obtain ⟨hA, hB⟩ := hful hf
  by_cases hc : i = req.raffleId
  · exact absurd (hc ▸ hA) hstat
  · rw [getRaffle_setRaffle_ne hc h0 hne]
    exact ⟨hA, hB⟩

theorem stateWF_congr {s s' : CState} (hr : s'.raffles = s.raffles)
    (hv : s'.vrfRequests = s.vrfRequests) (hb : s.balance ≤ s'.balance)
    (h : stateWF s) : stateWF s' := by
  obtain ⟨h1, h2, h3⟩ := h
  refine ⟨by rw [hr]; exact h1, ?_, reqWF_congr hv hr h3⟩
  have : escrowTotal s' = escrowTotal s := by simp [escrowTotal, hr]
  omega

theorem stateWF_init (o a b : Nat) : stateWF (initState o a b) := by
  refine ⟨?_, ?_, ?_⟩
  · intro r hm; simp [initState] at hm
  · simp [escrowTotal, initState]
  · intro id req hl; simp [initState] at hl

/-! ## Preservation of the invariant by every operation -/

/-- Crediting one raffle with `d` while the balance grows by `d` keeps the
invariant (entry paths). -/
theorem stateWF_credit {s : CState} {rid : Nat} {r' : Raffle} {d : Nat}
    (hWF : stateWF s) (h0 : rid ≠ 0) (h1 : rid ≤ s.raffles.length)
    (hr' : raffleWF r')
    (hcol : r'.totalCollected = (getRaffle s rid).totalCollected + d)
    (hstat : (getRaffle s rid).status ≠ .AwaitingVRF) :
    stateWF { setRaffle s rid r' with balance := s.balance + d } := by
  obtain ⟨hall, hbal, hreq⟩ := hWF
  refine ⟨?_, ?_, ?_⟩
  · intro r hm
    exact rafflesWF_set hall hr' r hm
  · have hes := escrow_setRaffle (s := s) (i := rid) (r := r') h0 h1
    rw [hcol] at hes
    show escrowTotal (setRaffle s rid r') ≤ s.balance + d
    omega
  · exact reqWF_congr rfl rfl (reqWF_setRaffle hreq h0 hstat)

/-- Debiting one raffle by `d` while the balance shrinks by `d` keeps the
invariant (refund and settlement paths). -/
theorem stateWF_debit {s : CState} {rid : Nat} {r' : Raffle} {d : Nat}
    (hWF : stateWF s) (h0 : rid ≠ 0) (h1 : rid ≤ s.raffles.length)
    (hr' : raffleWF r')
    (hcol : r'.totalCollected + d = (getRaffle s rid).totalCollected)
    (hstat : (getRaffle s rid).status ≠ .AwaitingVRF) :
    stateWF { setRaffle s rid r' with balance := s.balance - d } := by
  obtain ⟨hall, hbal, hreq⟩ := hWF
  refine ⟨?_, ?_, ?_⟩
  · intro r hm
    exact rafflesWF_set hall hr' r hm
  · have hes := escrow_setRaffle (s := s) (i := rid) (r := r') h0 h1
    show escrowTotal (setRaffle s rid r') ≤ s.balance - d
    omega
  · exact reqWF_congr rfl rfl (reqWF_setRaffle hreq h0 hstat)

theorem reqWF_append {s S : CState} {r : Raffle}
    (hv : S.vrfRequests = s.vrfRequests) (hr : S.raffles = s.raffles ++ [r])
    (h : reqWF s) : reqWF S := by
  intro id req hl
  rw [hv] at hl
  obtain ⟨ha, hb, hc⟩ := h id req hl
  have hlen : S.raffles.length = s.raffles.length + 1 := by rw [hr]; simp
  refine ⟨ha, by omega, ?_⟩
  intro hf
  have hlt : req.raffleId - 1 < s.raffles.length := by omega
  have hgr : getRaffle S req.raffleId = getRaffle s req.raffleId := by
    simp [getRaffle, ha, hr, List.getElem?_append, hlt]
  rw [hgr]; exact hc hf

theorem stateWF_create {s s' : CState} {tl : List Transfer}
    {caller : Nat} {rt : RaffleType} {ec ia el dl ta : Nat} {ip : Bool}
    {pa : Nat} {sigOk : Bool} {now : Nat}
    (h : createRaffle s caller rt ec ia el dl ta ip pa sigOk now = .ok (s', tl))
    (hWF : stateWF s) : stateWF s' := by
  obtain ⟨hall, hbal, hreq⟩ := hWF
  simp only [createRaffle] at h
  split at h
  · exact Except.noConfusion h
  split at h
  · exact Except.noConfusion h
  split at h
  · exact Except.noConfusion h
  split at h
  · exact Except.noConfusion h
  split at h
  · exact Except.noConfusion h
  rename_i hinc
  split at h
  · exact Except.noConfusion h
  split at h
  · exact Except.noConfusion h
  split at h
  · exact Except.noConfusion h
  injection h with h
  injection h with h1 h2
  subst h1
  refine ⟨?_, ?_, ?_⟩
  · intro r hm
    simp only [bumpNonce] at hm
    rcases List.mem_append.mp hm with hm | hm
    · exact hall r hm
    · obtain rfl := List.mem_singleton.mp hm
      refine ⟨List.nodup_nil, rfl, fun _ => (Nat.zero_mul _).symm,
        fun _ => rfl, ?_, by simp⟩
      intro hrt
      have hrt' : rt = RaffleType.IncentiveBased := hrt
      push_neg at hinc
      exact (hinc hrt').2
  · simpa [escrowTotal] using hbal
  · exact reqWF_append (s := s) rfl rfl hreq

theorem stateWF_enter {s s' : CState} {tl : List Transfer}
    {caller rid allowance : Nat}
    (h : enterRaffle s caller rid allowance = .ok (s', tl))
    (hWF : stateWF s) : stateWF s' := by
  simp only [enterRaffle] at h
  split at h
  · exact Except.noConfusion h
  split at h
  · exact Except.noConfusion h
  rename_i hbad
  split at h
  · exact Except.noConfusion h
  rename_i hstatus
  split at h
  · exact Except.noConfusion h
  rename_i hmem
  split at h
  · exact Except.noConfusion h
  rename_i htype
  split at h
  · exact Except.noConfusion h
  injection h with h
  injection h with h1 h2
  subst h1
  simp only [badRaffleId, CState.nextRaffleId, not_or, not_le] at hbad
  obtain ⟨h0, hlen⟩ := hbad
  have h1 : rid ≤ s.raffles.length := by omega
  set r := getRaffle s rid with hr
  have hrWF : raffleWF r := raffleWF_get hWF.1 h0 h1
  obtain ⟨hnd, hcnt, hlive, hfin, hia, hinact⟩ := hrWF
  have hact : r.status = .Active := by
    by_contra hc; exact hstatus hc
  have hper : perEntryAmount r = r.entryCost := by
    simp [perEntryAmount, htype]
  have hWFr2 : raffleWF (if
      (r.raffleType = .DonationBased ∧ r.entryLimit ≤ r.entryCount + 1) ∨
        (r.isPool = true ∧ r.targetAmount ≤ r.totalCollected + r.entryCost)
      then { r with members := caller :: r.members,
                    entryCount := r.entryCount + 1,
                    totalCollected := r.totalCollected + r.entryCost,
                    status := .Closed }
      else { r with members := caller :: r.members,
                    entryCount := r.entryCount + 1,
                    totalCollected := r.totalCollected + r.entryCost }) := by
    have hnotmem : caller ∉ r.members := hmem
    have hnd' : (caller :: r.members).Nodup := List.nodup_cons.mpr ⟨hnotmem, hnd⟩
    have htc : r.totalCollected + r.entryCost =
        (r.entryCount + 1) * perEntryAmount r := by
      rw [hper, hlive (by rw [hact]; simp), hper]; ring
    split
    · exact ⟨hnd', by simp [hcnt], fun _ => by simpa using htc,
        by simp, fun ht => hia ht, by simp⟩
    · exact ⟨hnd', by simp [hcnt], fun _ => by simpa using htc,
        by simp [hact], fun ht => hia ht, by simp [hact]⟩
  have := stateWF_credit (d := r.entryCost) hWF h0 h1 hWFr2
    (by split <;> simp) (by rw [hact]; simp)
  convert this using 2

theorem stateWF_join {s s' : CState} {tl : List Transfer}
    {caller rid pa : Nat} {sigOk : Bool} {allowance : Nat}
    (h : joinIncentiveRaffle s caller rid pa sigOk allowance = .ok (s', tl))
    (hWF : stateWF s) : stateWF s' := by
  unfold joinIncentiveRaffle at h
  split at h
  · exact Except.noConfusion h
  split at h
  · exact Except.noConfusion h
  rename_i hbad
  split at h
  · exact Except.noConfusion h
  simp only [] at h
  split at h
  · exact Except.noConfusion h
  rename_i hstatus
  split at h
  · exact Except.noConfusion h
  rename_i hmem
  split at h
  · exact Except.noConfusion h
  rename_i htype
  split at h
  · exact Except.noConfusion h
  split at h
  · exact Except.noConfusion h
  split at h
  · exact Except.noConfusion h
  rename_i hpanic
  injection h with h
  injection h with h1 h2
  subst h1
  simp only [badRaffleId, CState.nextRaffleId, not_or, not_le] at hbad
  obtain ⟨h0, hlen⟩ := hbad
  have h1 : rid ≤ s.raffles.length := by omega
  set r := getRaffle s rid with hr
  have hrWF : raffleWF r := raffleWF_get hWF.1 h0 h1
  obtain ⟨hnd, hcnt, hlive, hfin, hia, hinact⟩ := hrWF
  have hact : r.status = .Active := by
    by_contra hc; exact hstatus hc
  have htype' : r.raffleType = .IncentiveBased := not_not.mp htype
  have hper : perEntryAmount r = r.entryCost - r.incentiveAmount := by
    simp [perEntryAmount, htype']
  have hWFr2 : raffleWF (if
      r.isPool = true ∧
        r.targetAmount ≤ r.totalCollected + (r.entryCost - r.incentiveAmount)
      then { r with members := caller :: r.members,
                    entryCount := r.entryCount + 1,
                    totalCollected :=
                      r.totalCollected + (r.entryCost - r.incentiveAmount),
                    status := .Closed }
      else { r with members := caller :: r.members,
                    entryCount := r.entryCount + 1,
                    totalCollected :=
                      r.totalCollected + (r.entryCost - r.incentiveAmount) }) := by
    have hnotmem : caller ∉ r.members := hmem
    have hnd' : (caller :: r.members).Nodup := List.nodup_cons.mpr ⟨hnotmem, hnd⟩
    have htc : r.totalCollected + (r.entryCost - r.incentiveAmount) =
        (r.entryCount + 1) * perEntryAmount r := by
      rw [hlive (by rw [hact]; simp), hper]; ring
    split
    · exact ⟨hnd', by simp [hcnt], fun _ => by simpa [perEntryAmount] using htc,
        by simp, fun ht => hia ht, by simp⟩
    · exact ⟨hnd', by simp [hcnt], fun _ => by simpa [perEntryAmount] using htc,
        by simp [hact], fun ht => hia ht, by simp [hact]⟩
  have base := stateWF_credit (d := r.entryCost - r.incentiveAmount) hWF h0 h1
    hWFr2 (by split <;> simp) (by rw [hact]; simp)
  refine stateWF_congr ?_ ?_ ?_ base
  · rfl
  · rfl
  · show s.balance + (r.entryCost - r.incentiveAmount) ≤
      s.balance + r.entryCost - r.incentiveAmount
    omega

theorem stateWF_refund {s s' : CState} {tl : List Transfer}
    {caller rid now : Nat}
    (h : refund s caller rid now = .ok (s', tl)) (hWF : stateWF s) :
    stateWF s' := by
  unfold refund at h
  by_cases hp : s.paused = true
  · rw [if_pos hp] at h; exact Except.noConfusion h
  rw [if_neg hp] at h
  by_cases hbad : badRaffleId s rid
  · rw [if_pos hbad] at h; exact Except.noConfusion h
  rw [if_neg hbad] at h
  simp only [] at h
  set r := getRaffle s rid with hr
  set amt := if r.raffleType = RaffleType.IncentiveBased
    then r.entryCost - r.incentiveAmount else r.entryCost with hamt
  by_cases hmem : ¬ hasEntered r caller
  · rw [if_pos hmem] at h; exact Except.noConfusion h
  rw [if_neg hmem] at h
  by_cases hg2 : r.isPool = true ∧ r.status ≠ RaffleStatus.Active
  · rw [if_pos hg2] at h; exact Except.noConfusion h
  rw [if_neg hg2] at h
  by_cases hg3 : r.isPool = false ∧ r.status ≠ RaffleStatus.Active
  · rw [if_pos hg3] at h; exact Except.noConfusion h
  rw [if_neg hg3] at h
  by_cases hg4 : r.isPool = false ∧ now ≤ r.deadline + REFUND_GRACE_PERIOD
  · rw [if_pos hg4] at h; exact Except.noConfusion h
  rw [if_neg hg4] at h
  by_cases hg5 : r.raffleType = RaffleType.IncentiveBased ∧
      r.entryCost < r.incentiveAmount
  · rw [if_pos hg5] at h; exact Except.noConfusion h
  rw [if_neg hg5] at h
  by_cases hcnt0 : r.entryCount = 0
  · rw [if_pos hcnt0] at h; exact Except.noConfusion h
  rw [if_neg hcnt0] at h
  by_cases htcge : r.totalCollected < amt
  · rw [if_pos htcge] at h; exact Except.noConfusion h
  rw [if_neg htcge] at h
  split at h
  · exact Except.noConfusion h
  injection h with h
  injection h with h1 h2
  subst h1
  simp only [badRaffleId, CState.nextRaffleId, not_or, not_le] at hbad
  obtain ⟨h0, hlen⟩ := hbad
  have h1 : rid ≤ s.raffles.length := by omega
  have hrWF : raffleWF r := raffleWF_get hWF.1 h0 h1
  obtain ⟨hnd, hcnt, hlive, hfin, hia, hinact⟩ := hrWF
  have hmem' : hasEntered r caller := not_not.mp hmem
  have hact : r.status = .Active := by
    push_neg at hg2 hg3
    rcases Bool.eq_false_or_eq_true r.isPool with hb | hb
    · exact hg2 hb
    · exact hg3 hb
  have hamt' : amt = perEntryAmount r := rfl
  have htc : r.totalCollected = r.entryCount * perEntryAmount r :=
    hlive (by rw [hact]; simp)
  have htcge' : amt ≤ r.totalCollected := not_lt.mp htcge
  have hcnt1 : 1 ≤ r.entryCount := Nat.one_le_iff_ne_zero.mpr hcnt0
  have hWFr1 : raffleWF { r with members := r.members.erase caller,
                                 entryCount := r.entryCount - 1,
                                 totalCollected := r.totalCollected - amt } := by
    have hmemmem : caller ∈ r.members := hmem'
    refine ⟨hnd.erase caller, ?_, ?_, by simp [hact], fun ht => hia ht,
      by simp [hact]⟩
    · simp [List.length_erase_of_mem hmemmem, hcnt]
    · intro _
      show r.totalCollected - amt = (r.entryCount - 1) * perEntryAmount _
      have hpe : perEntryAmount
          { r with members := r.members.erase caller,
                   entryCount := r.entryCount - 1,
                   totalCollected := r.totalCollected - amt } =
          perEntryAmount r := by
        simp [perEntryAmount]
      rw [hpe, Nat.sub_one_mul, ← htc, hamt']
  have base := stateWF_debit (d := amt) hWF h0 h1 hWFr1
    (by simpa using Nat.sub_add_cancel htcge') (by rw [hact]; simp)
  refine stateWF_congr ?_ ?_ ?_ base
  · rfl
  · rfl
  · show s.balance - amt ≤ s.balance - amt
    exact Nat.le_refl _

theorem lookupHead {β : Type} {k : Nat} {b : β} {l : List (Nat × β)} :
    List.lookup k ((k, b) :: l) = some b := by
  simp [List.lookup]

theorem lookupTail {β : Type} {k a : Nat} {b : β} {l : List (Nat × β)}
    (h : a ≠ k) : List.lookup a ((k, b) :: l) = List.lookup a l := by
  have hbeq : (a == k) = false := by
    simpa using h
  simp [List.lookup, hbeq]

theorem getRaffle_outer {s : CState} {rid : Nat} {r1 : Raffle}
    {v : List (Nat × VRFRequest)} {n : Nat} (i : Nat) :
    getRaffle { setRaffle s rid r1 with vrfRequests := v, nextRequestId := n } i
      = getRaffle (setRaffle s rid r1) i := rfl

theorem getRaffle_balance {s : CState} {b : Nat} (i : Nat) :
    getRaffle { s with balance := b } i = getRaffle s i := rfl

theorem stateWF_finalizePool {s s' : CState} {tl : List Transfer} {rid : Nat}
    (h : finalizePoolRaffle s rid = .ok (s', tl)) (hWF : stateWF s)
    (h0 : rid ≠ 0) (h1 : rid ≤ s.raffles.length)
    (hstat : (getRaffle s rid).status ≠ .AwaitingVRF) :
    stateWF s' := by
  unfold finalizePoolRaffle at h
  simp only [] at h
  set r := getRaffle s rid with hr
  have hrWF := raffleWF_get hWF.1 h0 h1
  obtain ⟨hnd, hcnt, hlive, hfin, hia, hinact⟩ := hrWF
  have hWFr' : raffleWF (poolFinalUpdate r) :=
    ⟨hnd, hcnt, by simp [poolFinalUpdate], fun _ => rfl, fun ht => hia ht,
      by simp [poolFinalUpdate]⟩
  split at h
  · -- prizeAmount > 0
    rename_i hpos
    split at h
    · exact Except.noConfusion h
    injection h with h
    injection h with h1' h2'
    subst h1'
    have base := stateWF_debit (d := r.totalCollected) hWF h0 h1 hWFr'
      (by simp [poolFinalUpdate]) hstat
    refine stateWF_congr ?_ ?_ ?_ base
    · rfl
    · rfl
    · show s.balance - r.totalCollected ≤ s.balance - r.totalCollected
      exact Nat.le_refl _
  · -- prizeAmount = 0
    rename_i hz
    injection h with h
    injection h with h1' h2'
    subst h1'
    have htc0 : r.totalCollected = 0 := by omega
    have base := stateWF_debit (d := 0) hWF h0 h1 hWFr'
      (by rw [← hr]; simp [poolFinalUpdate, htc0]) hstat
    refine stateWF_congr ?_ ?_ ?_ base
    · rfl
    · rfl
    · show s.balance - 0 ≤ s.balance
      omega

theorem stateWF_requestVRF {s : CState} {rid : Nat}
    (hWF : stateWF s) (h0 : rid ≠ 0) (h1 : rid ≤ s.raffles.length)
    (hstat : (getRaffle s rid).status ≠ .AwaitingVRF)
    (hnfin : (getRaffle s rid).status ≠ .Finalized) :
    stateWF (requestVRF s rid).1 := by
  unfold requestVRF
  simp only []
  obtain ⟨hall, hbal, hreq⟩ := hWF
  have hrWF := raffleWF_get hall h0 h1
  obtain ⟨hnd, hcnt, hlive, hfin, hia, hinact⟩ := hrWF
  split
  · -- entryCount = 0: immediate finalization
    rename_i hcnt0
    have htc0 : (getRaffle s rid).totalCollected = 0 := by
      rw [hlive hnfin, hcnt0]; simp
    refine ⟨?_, ?_, ?_⟩
    · exact rafflesWF_set hall
        ⟨hnd, hcnt, by simp, fun _ => htc0, fun ht => hia ht, by simp⟩
    · have hes := escrow_setRaffle (s := s) (i := rid)
        (r := { getRaffle s rid with status := RaffleStatus.Finalized }) h0 h1
      have htceq : ({ getRaffle s rid with status := RaffleStatus.Finalized } : Raffle).totalCollected = (getRaffle s rid).totalCollected := rfl
      show escrowTotal (setRaffle s rid { getRaffle s rid with status := RaffleStatus.Finalized }) ≤ s.balance
      omega
    · exact reqWF_setRaffle hreq h0 hstat
  · -- entryCount > 0: record the VRF request, await the callback
    rename_i hcnt0
    refine ⟨?_, ?_, ?_⟩
    · exact rafflesWF_set hall
        ⟨hnd, hcnt, fun _ => by simpa [perEntryAmount] using hlive hnfin,
          by simp, fun ht => hia ht, by simp⟩
    · have hes := escrow_setRaffle (s := s) (i := rid)
        (r := { getRaffle s rid with vrfRequestId := s.nextRequestId, status := RaffleStatus.AwaitingVRF }) h0 h1
      have htceq : ({ getRaffle s rid with vrfRequestId := s.nextRequestId, status := RaffleStatus.AwaitingVRF } : Raffle).totalCollected = (getRaffle s rid).totalCollected := rfl
      show escrowTotal (setRaffle s rid { getRaffle s rid with vrfRequestId := s.nextRequestId, status := RaffleStatus.AwaitingVRF }) ≤ s.balance
      omega
    · intro rqid req hl
      have hl2 : List.lookup rqid
          ((s.nextRequestId, (⟨rid, false⟩ : VRFRequest)) ::
            s.vrfRequests) = some req := hl
      by_cases hid : rqid = s.nextRequestId
      · rw [hid, lookupHead] at hl2
        injection hl2 with hl2
        subst hl2
        refine ⟨h0, by simpa [setRaffle] using h1, ?_⟩
        intro _
        rw [getRaffle_outer, getRaffle_setRaffle_self h0 h1]
        exact ⟨rfl, hid.symm⟩
      · rw [lookupTail hid] at hl2
        obtain ⟨ha, hb, hc⟩ := hreq rqid req hl2
        refine ⟨ha, by simpa [setRaffle] using hb, ?_⟩
        intro hf
        obtain ⟨hA, hB⟩ := hc hf
        by_cases hcr : rid = req.raffleId
        · rw [← hcr] at hA; exact absurd hA hstat
        · rw [getRaffle_outer, getRaffle_setRaffle_ne hcr h0 ha]
          exact ⟨hA, hB⟩

theorem stateWF_end {s s' : CState} {tl : List Transfer}
    {caller rid : Nat} {sigOk : Bool} {now : Nat}
    (h : endRaffle s caller rid sigOk now = .ok (s', tl)) (hWF : stateWF s) :
    stateWF s' := by
  unfold endRaffle at h
  split at h
  · exact Except.noConfusion h
  split at h
  · exact Except.noConfusion h
  rename_i hbad
  simp only [] at h
  split at h
  · exact Except.noConfusion h
  rename_i hstA
  split at h
  · exact Except.noConfusion h
  split at h
  · exact Except.noConfusion h
  split at h
  · exact Except.noConfusion h
  split at h
  · exact Except.noConfusion h
  simp only [badRaffleId, CState.nextRaffleId, not_or, not_le] at hbad
  obtain ⟨h0, hlen⟩ := hbad
  have h1 : rid ≤ s.raffles.length := by omega
  have hsac : (getRaffle s rid).status = .Active ∨
      (getRaffle s rid).status = .Closed := by
    by_contra hc
    push_neg at hc
    exact hstA ⟨hc.1, hc.2⟩
  have hstat : (getRaffle s rid).status ≠ .AwaitingVRF := by
    rcases hsac with hx | hx <;> rw [hx] <;> simp
  have hnfin : (getRaffle s rid).status ≠ .Finalized := by
    rcases hsac with hx | hx <;> rw [hx] <;> simp
  set s1 := if caller = (getRaffle s rid).organizer
    then bumpNonce s caller else s with hs1
  have hr1 : s1.raffles = s.raffles := by
    rw [hs1]; split <;> rfl
  have hv1 : s1.vrfRequests = s.vrfRequests := by
    rw [hs1]; split <;> rfl
  have hb1 : s1.balance = s.balance := by
    rw [hs1]; split <;> rfl
  have hW1 : stateWF s1 := stateWF_congr hr1 hv1 (by omega) hWF
  have hg1 : getRaffle s1 rid = getRaffle s rid := getRaffle_congr hr1 rid
  have h1' : rid ≤ s1.raffles.length := by rw [hr1]; exact h1
  split at h
  · -- pool raffle: direct finalization
    exact stateWF_finalizePool h hW1 h0 h1' (by rw [hg1]; exact hstat)
  · -- traditional raffle: VRF request (or zero-entry finalization)
    injection h with h
    have hfst : (requestVRF s1 rid).1 = s' := congrArg Prod.fst h
    rw [← hfst]
    exact stateWF_requestVRF hW1 h0 h1' (by rw [hg1]; exact hstat)
      (by rw [hg1]; exact hnfin)

theorem stateWF_fulfill {s s' : CState} {tl : List Transfer} {reqId rw : Nat}
    (h : fulfillRandomWords s reqId rw = .ok (s', tl)) (hWF : stateWF s) :
    stateWF s' := by
  obtain ⟨hall, hbal, hreq⟩ := hWF
  unfold fulfillRandomWords at h
  simp only [] at h
  split at h
  · exact Except.noConfusion h
  rename_i hne0
  split at h
  · -- already fulfilled: silent no-op
    injection h with h
    injection h with h1' h2'
    subst h1'
    exact ⟨hall, hbal, hreq⟩
  rename_i hnotful
  split at h
  · exact Except.noConfusion h
  rename_i hawait
  split at h
  · exact Except.noConfusion h
  rename_i hcnt0
  -- facts about the looked-up request
  set q := lookupReq s reqId with hq
  have hlk : s.vrfRequests.lookup reqId = some q := by
    rcases hcase : s.vrfRequests.lookup reqId with _ | v
    · exfalso
      apply hne0
      rw [hq]
      simp [lookupReq, hcase]
    · rw [hq]
      simp [lookupReq, hcase]
  obtain ⟨ha0, hale, hcful⟩ := hreq reqId q hlk
  have hful' : q.fulfilled = false := by
    rcases Bool.eq_false_or_eq_true q.fulfilled with hx | hx
    · exact absurd hx hnotful
    · exact hx
  obtain ⟨hA, hB⟩ := hcful hful'
  have hrWF := raffleWF_get (s := s) hall ha0 hale
  obtain ⟨hnd, hcnt, hlive, hfin, hia, hinact⟩ := hrWF
  set s1 : CState :=
    { s with vrfRequests := (reqId, ⟨q.raffleId, true⟩) :: s.vrfRequests }
    with hs1
  have hg1 : ∀ i, getRaffle s1 i = getRaffle s i := fun i =>
    getRaffle_congr rfl i
  set w := rw % (getRaffle s1 q.raffleId).entryCount + 1 with hw
  have hWFr' : raffleWF (vrfFinalUpdate (getRaffle s1 q.raffleId) w) := by
    rw [hg1]
    exact ⟨hnd, hcnt, by simp [vrfFinalUpdate], fun _ => rfl,
      fun ht => hia ht, by simp [vrfFinalUpdate]⟩
  have hkey : ∀ d : Nat,
      (vrfFinalUpdate (getRaffle s1 q.raffleId) w).totalCollected + d =
        (getRaffle s q.raffleId).totalCollected →
      stateWF { setRaffle s1 q.raffleId
          (vrfFinalUpdate (getRaffle s1 q.raffleId) w) with
          balance := s.balance - d } := by
    intro d hd
    refine ⟨?_, ?_, ?_⟩
    · exact rafflesWF_set (s := s1) hall hWFr'
    · have hes := escrow_setRaffle (s := s1) (i := q.raffleId)
        (r := vrfFinalUpdate (getRaffle s1 q.raffleId) w) ha0
        (by exact hale)
      have he1 : escrowTotal s1 = escrowTotal s := rfl
      have hgtc : (getRaffle s1 q.raffleId).totalCollected =
          (getRaffle s q.raffleId).totalCollected := by rw [hg1]
      have hcle := collected_le_escrow (s := s) ha0 hale
      show escrowTotal (setRaffle s1 q.raffleId
        (vrfFinalUpdate (getRaffle s1 q.raffleId) w)) ≤ s.balance - d
      omega
    · intro rqid req hl
      have hlen' : (setRaffle s1 q.raffleId
          (vrfFinalUpdate (getRaffle s1 q.raffleId) w)).raffles.length =
          s.raffles.length := by
        simp [setRaffle]
      have hl2 : List.lookup rqid
          ((reqId, (⟨q.raffleId, true⟩ : VRFRequest)) ::
            s.vrfRequests) = some req := hl
      by_cases hid : rqid = reqId
      · rw [hid, lookupHead] at hl2
        injection hl2 with hl2
        subst hl2
        exact ⟨ha0, by rw [hlen']; exact hale, by simp⟩
      · rw [lookupTail hid] at hl2
        obtain ⟨ha', hb', hc'⟩ := hreq rqid req hl2
        refine ⟨ha', by rw [hlen']; exact hb', ?_⟩
        intro hf
        obtain ⟨hA', hB'⟩ := hc' hf
        by_cases hcr : q.raffleId = req.raffleId
        · exfalso
          rw [← hcr] at hB'
          rw [hB] at hB'
          exact hid hB'.symm
        · rw [getRaffle_balance, getRaffle_setRaffle_ne hcr ha0 ha', hg1]
          exact ⟨hA', hB'⟩
  split at h
  · -- positive prize: transfer out
    split at h
    · exact Except.noConfusion h
    injection h with h
    injection h with h1' h2'
    subst h1'
    have := hkey (getRaffle s1 q.raffleId).totalCollected
      (by rw [hg1]; simp [vrfFinalUpdate])
    refine stateWF_congr ?_ ?_ ?_ this
    · rfl
    · rfl
    · show s.balance - (getRaffle s1 q.raffleId).totalCollected ≤
        s.balance - (getRaffle s1 q.raffleId).totalCollected
      exact Nat.le_refl _
  · -- zero prize: no transfer
    rename_i hz
    injection h with h
    injection h with h1' h2'
    subst h1'
    have htc0 : (getRaffle s1 q.raffleId).totalCollected = 0 := by omega
    have := hkey 0 (by rw [hg1] at htc0 ⊢; simp [vrfFinalUpdate, htc0])
    refine stateWF_congr ?_ ?_ ?_ this
    · rfl
    · rfl
    · show s.balance - 0 ≤ s.balance
      omega

theorem stateWF_pause {s s' : CState} {caller : Nat}
    (h : pause s caller = .ok s') (hWF : stateWF s) : stateWF s' := by
  unfold pause at h
  split at h
  · exact Except.noConfusion h
  injection h with h1
  subst h1
  exact stateWF_congr rfl rfl (Nat.le_refl _) hWF

theorem stateWF_unpause {s s' : CState} {caller : Nat}
    (h : unpause s caller = .ok s') (hWF : stateWF s) : stateWF s' := by
  unfold unpause at h
  split at h
  · exact Except.noConfusion h
  injection h with h1
  subst h1
  exact stateWF_congr rfl rfl (Nat.le_refl _) hWF

theorem stateWF_updateSigner {s s' : CState} {caller ns : Nat}
    (h : updateAppServerSigner s caller ns = .ok s') (hWF : stateWF s) :
    stateWF s' := by
  unfold updateAppServerSigner at h
  split at h
  · exact Except.noConfusion h
  split at h
  · exact Except.noConfusion h
  injection h with h1
  subst h1
  exact stateWF_congr rfl rfl (Nat.le_refl _) hWF

/-- Every successful operation preserves the invariant. -/
theorem step_stateWF {s s' : CState} (h : Step s s') (hWF : stateWF s) :
    stateWF s' := by
  cases h with
  | create _ _ _ _ _ _ _ _ _ _ _ hop => exact stateWF_create hop hWF
  | enter _ _ _ hop => exact stateWF_enter hop hWF
  | join _ _ _ _ _ hop => exact stateWF_join hop hWF
  | refundStep _ _ _ hop => exact stateWF_refund hop hWF
  | endStep _ _ _ _ hop => exact stateWF_end hop hWF
  | fulfill _ _ hop => exact stateWF_fulfill hop hWF
  | pauseStep _ hop => exact stateWF_pause hop hWF
  | unpauseStep _ hop => exact stateWF_unpause hop hWF
  | updateSigner _ _ hop => exact stateWF_updateSigner hop hWF
  | donate amt =>
      refine stateWF_congr ?_ ?_ ?_ hWF
      · rfl
      · rfl
      · show s.balance ≤ s.balance + amt
        exact Nat.le_add_right _ _

/-- The invariant holds in every reachable contract state. -/
theorem reachable_stateWF {s : CState} (h : Reachable s) : stateWF s := by
  obtain ⟨o, a, b, hsteps⟩ := h
  induction hsteps with
  | refl => exact stateWF_init o a b
  | tail _ hstep ih => exact step_stateWF hstep ih

/-! ## Concrete execution facts -/

theorem runA1 : createRaffle cA0 3 .ProfitBased 100 0 0 1000 500 true 9 true 10
    = .ok (cA1, []) := rfl

theorem runA2 : enterRaffle cA1 4 1 100 = .ok (cA2, [.tin 4 100]) := rfl

theorem runA3 : endRaffle cA2 2 1 false 10 = .ok (cA3, [.tout 9 100]) := rfl

theorem reach_cA1 : Reachable cA1 :=
  ⟨1, 2, 0, Relation.ReflTransGen.tail Relation.ReflTransGen.refl
    (Step.create 3 .ProfitBased 100 0 0 1000 500 true 9 true 10 runA1)⟩

theorem reach_cA2 : Reachable cA2 :=
  ⟨1, 2, 0, Relation.ReflTransGen.tail (Relation.ReflTransGen.tail
    Relation.ReflTransGen.refl
    (Step.create 3 .ProfitBased 100 0 0 1000 500 true 9 true 10 runA1))
    (Step.enter 4 1 100 runA2)⟩

theorem reach_cA3 : Reachable cA3 :=
  ⟨1, 2, 0, Relation.ReflTransGen.tail (Relation.ReflTransGen.tail
    (Relation.ReflTransGen.tail Relation.ReflTransGen.refl
      (Step.create 3 .ProfitBased 100 0 0 1000 500 true 9 true 10 runA1))
    (Step.enter 4 1 100 runA2)) (Step.endStep 2 1 false 10 runA3)⟩

theorem runB1 : createRaffle cB0 3 .DonationBased 100 0 2 1000 0 false 9 true 10
    = .ok (cB1, []) := rfl

theorem runB2 : enterRaffle cB1 4 1 100 = .ok (cB2, [.tin 4 100]) := rfl

theorem runB3 : enterRaffle cB2 5 1 100 = .ok (cB3, [.tin 5 100]) := rfl

theorem runB4 : endRaffle cB3 2 1 false 10 = .ok (cB4, []) := rfl

theorem runB5 : fulfillRandomWords cB4 1 7 = .ok (cB5, [.tout 9 200]) := rfl

theorem reach_cB4 : Reachable cB4 :=
  ⟨1, 2, 0, Relation.ReflTransGen.tail (Relation.ReflTransGen.tail
    (Relation.ReflTransGen.tail (Relation.ReflTransGen.tail
      Relation.ReflTransGen.refl
      (Step.create 3 .DonationBased 100 0 2 1000 0 false 9 true 10 runB1))
    (Step.enter 4 1 100 runB2)) (Step.enter 5 1 100 runB3))
    (Step.endStep 2 1 false 10 runB4)⟩

theorem reach_cB5 : Reachable cB5 := by
  obtain ⟨o, a, b, hs⟩ := reach_cB4
  exact ⟨o, a, b, Relation.ReflTransGen.tail hs (Step.fulfill 1 7 runB5)⟩

theorem runC1 : createRaffle cC0 3 .IncentiveBased 100 20 0 1000 0 false 9 true 10
    = .ok (cC1, []) := rfl

theorem runC2 : joinIncentiveRaffle cC1 4 1 8 true 100
    = .ok (cC2, [.tin 4 100, .tout 8 20]) := rfl

theorem runC3 : refund cC2 4 1 5000 = .ok (cC3, [.tout 4 80]) := rfl

theorem reach_cC2 : Reachable cC2 :=
  ⟨1, 2, 0, Relation.ReflTransGen.tail (Relation.ReflTransGen.tail
    Relation.ReflTransGen.refl
    (Step.create 3 .IncentiveBased 100 20 0 1000 0 false 9 true 10 runC1))
    (Step.join 4 1 8 true 100 runC2)⟩

theorem runD1 : createRaffle cA0 2 .ProfitBased 100 0 0 1000 0 false 9 true 10
    = .ok (cD1, []) := rfl

theorem reach_cD1 : Reachable cD1 :=
  ⟨1, 2, 0, Relation.ReflTransGen.tail Relation.ReflTransGen.refl
    (Step.create 2 .ProfitBased 100 0 0 1000 0 false 9 true 10 runD1)⟩

/-! ## Claim C1: the escrow invariant -/

theorem sum_map_const {α : Type} (l : List α) (c : Nat) :
    (l.map (fun _ => c)).sum = l.length * c := by
  induction l with
  | nil => simp
  | cons a t ih => simp [ih, Nat.succ_mul]; ring

/-- C1 (counterexample): the claim "collectedBalance equals the sum over
current members of their raffle-portion contribution, for every raffle in
every reachable state" is false: after the App Server ends a pool raffle with
one 100-token entry, the raffle is reachable with collectedBalance 0 while
its sole member's raffle-portion contribution still sums to 100 — members'
hasEntered flags are not cleared on finalization. -/
theorem c1_counterexample :
    Reachable cA3 ∧
    ¬ (∀ r ∈ cA3.raffles, r.totalCollected = membersRafflePortionSum r) :=
  ⟨reach_cA3, by decide⟩

/-- C1 (amended): in every reachable state, every raffle that is not
Finalized has collectedBalance equal to the sum over current members
(hasEntered = true) of their raffle-portion contribution
(entryCost - incentiveAmount for IncentiveBased raffles, entryCost
otherwise); every Finalized raffle has collectedBalance exactly 0; and the
contract's held token balance is at least the sum of collectedBalance over
all raffles.  Reachability is closed under every operation (enterRaffle,
joinIncentiveRaffle, refund, endRaffle, fulfillRandomWords and the admin
calls), so all of them preserve this invariant. -/
theorem c1_amended {s : CState} (h : Reachable s) :
    (∀ r ∈ s.raffles, r.status ≠ .Finalized →
        r.totalCollected = membersRafflePortionSum r) ∧
    (∀ r ∈ s.raffles, r.status = .Finalized → r.totalCollected = 0) ∧
    escrowTotal s ≤ s.balance := by
  obtain ⟨hall, hbal, hreq⟩ := reachable_stateWF h
  refine ⟨?_, ?_, hbal⟩
  · intro r hm hnf
    obtain ⟨hnd, hcnt, hlive, hfin, hia, hinact⟩ := hall r hm
    rw [hlive hnf, membersRafflePortionSum, sum_map_const, hcnt]
  · intro r hm hf
    exact (hall r hm).2.2.2.1 hf

/-- C1 witness: the amended invariant evaluated in the concrete reachable
state with one active pool raffle holding 100 tokens. -/
theorem c1_amended_witness :
    (∀ r ∈ cA2.raffles, r.status ≠ .Finalized →
        r.totalCollected = membersRafflePortionSum r) ∧
    (∀ r ∈ cA2.raffles, r.status = .Finalized → r.totalCollected = 0) ∧
    escrowTotal cA2 ≤ cA2.balance :=
  c1_amended reach_cA2

/-! ## Claim C3: duplicate fulfillment is idempotent -/

/-- A fulfillment whose request record is already marked fulfilled returns
success with the state unchanged and no transfers. -/
theorem fulfill_noop {S : CState} {k rword : Nat}
    (h1 : (lookupReq S k).raffleId ≠ 0)
    (h2 : (lookupReq S k).fulfilled = true) :
    fulfillRandomWords S k rword = .ok (S, []) := by
  unfold fulfillRandomWords
  simp only []
  rw [if_neg h1, if_pos h2]

/-- C3: delivering the same fulfillment callback twice produces a final
state identical to delivering it once — if the first delivery succeeds with
post-state s', the second delivery of the identical arguments on s' returns
successfully (no error) with state s' unchanged and no token movement. -/
theorem c3_fulfill_idempotent {s s' : CState} {tl : List Transfer}
    {reqId randomWord : Nat}
    (h : fulfillRandomWords s reqId randomWord = .ok (s', tl)) :
    fulfillRandomWords s' reqId randomWord = .ok (s', []) := by
  unfold fulfillRandomWords at h
  simp only [] at h
  split at h
  · exact Except.noConfusion h
  rename_i hne0
  split at h
  · rename_i hful
    injection h with h
    injection h with h1 h2
    subst h1
    exact fulfill_noop hne0 hful
  · split at h
    · exact Except.noConfusion h
    split at h
    · exact Except.noConfusion h
    split at h
    · split at h
      · exact Except.noConfusion h
      injection h with h
      injection h with h1 h2
      subst h1
      exact fulfill_noop (by simpa [lookupReq, List.lookup] using hne0)
        (by simp [lookupReq, List.lookup])
    · injection h with h
      injection h with h1 h2
      subst h1
      exact fulfill_noop (by simpa [lookupReq, List.lookup] using hne0)
        (by simp [lookupReq, List.lookup])

/-- C3 witness: fulfilling request 1 of the concrete traditional raffle with
random word 7 succeeds, and delivering the identical callback again is a
silent no-op on the resulting state. -/
theorem c3_witness :
    fulfillRandomWords cB4 1 7 = .ok (cB5, [.tout 9 200]) ∧
    fulfillRandomWords cB5 1 7 = .ok (cB5, []) :=
  ⟨runB5, c3_fulfill_idempotent runB5⟩

/-! ## Claim C8: winner-index formula -/

/-- C8: the first (non-duplicate) fulfillment of a VRF request computes the
1-based winner index as randomWord mod entryCount plus 1. -/
theorem c8_winner_index {s s' : CState} {tl : List Transfer}
    {reqId randomWord : Nat}
    (h : fulfillRandomWords s reqId randomWord = .ok (s', tl))
    (hfirst : (lookupReq s reqId).fulfilled = false) :
    (getRaffle s' (lookupReq s reqId).raffleId).winnerIndex =
      randomWord % (getRaffle s (lookupReq s reqId).raffleId).entryCount + 1 := by
  unfold fulfillRandomWords at h
  simp only [] at h
  split at h
  · exact Except.noConfusion h
  rename_i hne0
  split at h
  · rename_i hful
    rw [hfirst] at hful
    exact Bool.noConfusion hful
  split at h
  · exact Except.noConfusion h
  rename_i hawait
  split at h
  · exact Except.noConfusion h
  rename_i hcnt0
  have hstat : (getRaffle s (lookupReq s reqId).raffleId).status = .AwaitingVRF :=
    not_not.mp hawait
  have hlt : (lookupReq s reqId).raffleId ≤ s.raffles.length := by
    by_contra hgt
    push_neg at hgt
    have hnone : s.raffles[(lookupReq s reqId).raffleId - 1]? = none :=
      List.getElem?_eq_none (by omega)
    have hdef : getRaffle s (lookupReq s reqId).raffleId = default := by
      simp [getRaffle, hne0, hnone]
    have hdst : (default : Raffle).status = .Inactive := rfl
    rw [hdef, hdst] at hstat
    exact RaffleStatus.noConfusion hstat
  set s1 : CState := { s with vrfRequests :=
    (reqId, ⟨(lookupReq s reqId).raffleId, true⟩) :: s.vrfRequests } with hs1
  have hlt1 : (lookupReq s reqId).raffleId ≤ s1.raffles.length := hlt
  split at h
  · split at h
    · exact Except.noConfusion h
    injection h with h
    injection h with h1 h2
    subst h1
    rw [getRaffle_balance, getRaffle_setRaffle_self hne0 hlt1]
    simp only [vrfFinalUpdate]
    rw [getRaffle_congr (show s1.raffles = s.raffles from rfl)]
  · injection h with h
    injection h with h1 h2
    subst h1
    rw [getRaffle_setRaffle_self hne0 hlt1]
    simp only [vrfFinalUpdate]
    rw [getRaffle_congr (show s1.raffles = s.raffles from rfl)]

/-- C8 witness: in the concrete two-entry traditional raffle, fulfillment
with random word 7 yields winnerIndex = (7 mod 2) + 1 = 2. -/
theorem c8_witness :
    (getRaffle cB5 (lookupReq cB4 1).raffleId).winnerIndex =
      7 % (getRaffle cB4 (lookupReq cB4 1).raffleId).entryCount + 1 ∧
    (getRaffle cB5 1).winnerIndex = 2 :=
  ⟨c8_winner_index runB5 (by decide), by decide⟩

/-! ## Claim C10: refund by a non-member -/

/-- C10: for a valid raffle id (and the contract not paused), refund called
by an address that is not currently a member reverts with AlreadyEntered —
the same error used against double entry — and being a revert, it produces
no state change or transfer. -/
theorem c10_refund_nonmember {s : CState} {caller rid now : Nat}
    (hp : s.paused = false) (hv : ¬ badRaffleId s rid)
    (hm : ¬ hasEntered (getRaffle s rid) caller) :
    refund s caller rid now = .error .AlreadyEntered := by
  unfold refund
  rw [if_neg (by simp [hp]), if_neg hv]
  simp only []
  rw [if_pos hm]

/-- C10 witness: address 7 never entered the concrete pool raffle, and its
refund call reverts with AlreadyEntered. -/
theorem c10_witness : refund cA1 7 1 99 = .error .AlreadyEntered :=
  c10_refund_nonmember rfl (by decide) (by decide)

/-! ## Claim C7: the incentive split -/

theorem getRaffle_bumpNonce {s : CState} {a : Nat} (i : Nat) :
    getRaffle (bumpNonce s a) i = getRaffle s i := rfl

/-- C7: a successful joinIncentiveRaffle credits exactly
entryCost - incentiveAmount to collectedBalance, pulls the full entryCost
from the participant and forwards exactly incentiveAmount to the incentive
destination; and a refund on an IncentiveBased raffle transfers exactly
entryCost - incentiveAmount back to the participant. -/
theorem c7_incentive_split :
    (∀ (s s' : CState) (tl : List Transfer) (caller rid pa : Nat)
        (sigOk : Bool) (allowance : Nat),
      joinIncentiveRaffle s caller rid pa sigOk allowance = .ok (s', tl) →
      (getRaffle s' rid).totalCollected =
        (getRaffle s rid).totalCollected +
          ((getRaffle s rid).entryCost - (getRaffle s rid).incentiveAmount) ∧
      tl = [.tin caller (getRaffle s rid).entryCost,
            .tout pa (getRaffle s rid).incentiveAmount] ∧
      s'.balance = s.balance + (getRaffle s rid).entryCost
        - (getRaffle s rid).incentiveAmount) ∧
    (∀ (s s' : CState) (tl : List Transfer) (caller rid now : Nat),
      (getRaffle s rid).raffleType = .IncentiveBased →
      refund s caller rid now = .ok (s', tl) →
      tl = [.tout caller ((getRaffle s rid).entryCost -
        (getRaffle s rid).incentiveAmount)]) := by
  constructor
  · intro s s' tl caller rid pa sigOk allowance h
    unfold joinIncentiveRaffle at h
    split at h
    · exact Except.noConfusion h
    split at h
    · exact Except.noConfusion h
    rename_i hbad
    split at h
    · exact Except.noConfusion h
    simp only [] at h
    split at h
    · exact Except.noConfusion h
    split at h
    · exact Except.noConfusion h
    split at h
    · exact Except.noConfusion h
    split at h
    · exact Except.noConfusion h
    split at h
    · exact Except.noConfusion h
    split at h
    · exact Except.noConfusion h
    injection h with h
    injection h with h1 h2
    subst h1
    simp only [badRaffleId, CState.nextRaffleId, not_or, not_le] at hbad
    obtain ⟨h0, hlen⟩ := hbad
    have h1 : rid ≤ s.raffles.length := by omega
    refine ⟨?_, h2.symm, rfl⟩
    rw [getRaffle_balance, getRaffle_bumpNonce, getRaffle_setRaffle_self h0 h1]
    split <;> rfl
  · intro s s' tl caller rid now hInc h
    unfold refund at h
    by_cases hp : s.paused = true
    · rw [if_pos hp] at h; exact Except.noConfusion h
    rw [if_neg hp] at h
    by_cases hbad : badRaffleId s rid
    · rw [if_pos hbad] at h; exact Except.noConfusion h
    rw [if_neg hbad] at h
    simp only [] at h
    by_cases hmem : ¬ hasEntered (getRaffle s rid) caller
    · rw [if_pos hmem] at h; exact Except.noConfusion h
    rw [if_neg hmem] at h
    by_cases hg2 : (getRaffle s rid).isPool = true ∧
        (getRaffle s rid).status ≠ RaffleStatus.Active
    · rw [if_pos hg2] at h; exact Except.noConfusion h
    rw [if_neg hg2] at h
    by_cases hg3 : (getRaffle s rid).isPool = false ∧
        (getRaffle s rid).status ≠ RaffleStatus.Active
    · rw [if_pos hg3] at h; exact Except.noConfusion h
    rw [if_neg hg3] at h
    by_cases hg4 : (getRaffle s rid).isPool = false ∧
        now ≤ (getRaffle s rid).deadline + REFUND_GRACE_PERIOD
    · rw [if_pos hg4] at h; exact Except.noConfusion h
    rw [if_neg hg4] at h
    by_cases hg5 : (getRaffle s rid).raffleType = RaffleType.IncentiveBased ∧
        (getRaffle s rid).entryCost < (getRaffle s rid).incentiveAmount
    · rw [if_pos hg5] at h; exact Except.noConfusion h
    rw [if_neg hg5] at h
    by_cases hcnt0 : (getRaffle s rid).entryCount = 0
    · rw [if_pos hcnt0] at h; exact Except.noConfusion h
    rw [if_neg hcnt0] at h
    rw [if_pos hInc] at h
    split at h
    · exact Except.noConfusion h
    split at h
    · exact Except.noConfusion h
    injection h with h
    injection h with h1 h2
    subst h1
    exact h2.symm

/-- C7 witness: in the concrete IncentiveBased raffle with entryCost 100 and
incentiveAmount 20, one join credits 80 to collectedBalance while pulling
100 from the participant and forwarding 20 to destination 8, and the later
refund returns exactly 80 (collectedBalance reached 80, not 100). -/
theorem c7_witness :
    ((getRaffle cC2 1).totalCollected =
        (getRaffle cC1 1).totalCollected +
          ((getRaffle cC1 1).entryCost - (getRaffle cC1 1).incentiveAmount) ∧
      [Transfer.tin 4 100, Transfer.tout 8 20] =
        [Transfer.tin 4 (getRaffle cC1 1).entryCost,
         Transfer.tout 8 (getRaffle cC1 1).incentiveAmount] ∧
      cC2.balance = cC1.balance + (getRaffle cC1 1).entryCost
        - (getRaffle cC1 1).incentiveAmount) ∧
    [Transfer.tout 4 80] =
      [Transfer.tout 4 ((getRaffle cC2 1).entryCost -
        (getRaffle cC2 1).incentiveAmount)] ∧
    (getRaffle cC2 1).totalCollected = 80 :=
  ⟨c7_incentive_split.1 cC1 cC2 _ 4 1 8 true 100 runC2,
   c7_incentive_split.2 cC2 cC3 _ 4 1 5000 (by decide) runC3, by decide⟩

/-! ## Claim C9: automatic closing after entry -/

/-- C9: after every successful entry (enterRaffle or joinIncentiveRaffle on
an Active raffle), the raffle's status is Closed exactly when
(DonationBased and entryCount ≥ entryLimit) or (pool mode and
collectedBalance ≥ targetAmount), evaluated on the updated raffle;
otherwise it remains Active. -/
theorem c9_auto_close :
    (∀ (s s' : CState) (tl : List Transfer) (caller rid allowance : Nat),
      enterRaffle s caller rid allowance = .ok (s', tl) →
      (getRaffle s rid).status = .Active ∧
      (getRaffle s' rid).status =
        (if ((getRaffle s' rid).raffleType = .DonationBased ∧
              (getRaffle s' rid).entryLimit ≤ (getRaffle s' rid).entryCount) ∨
            ((getRaffle s' rid).isPool = true ∧
              (getRaffle s' rid).targetAmount ≤ (getRaffle s' rid).totalCollected)
          then RaffleStatus.Closed else RaffleStatus.Active)) ∧
    (∀ (s s' : CState) (tl : List Transfer) (caller rid pa : Nat)
        (sigOk : Bool) (allowance : Nat),
      joinIncentiveRaffle s caller rid pa sigOk allowance = .ok (s', tl) →
      (getRaffle s rid).status = .Active ∧
      (getRaffle s' rid).status =
        (if ((getRaffle s' rid).raffleType = .DonationBased ∧
              (getRaffle s' rid).entryLimit ≤ (getRaffle s' rid).entryCount) ∨
            ((getRaffle s' rid).isPool = true ∧
              (getRaffle s' rid).targetAmount ≤ (getRaffle s' rid).totalCollected)
          then RaffleStatus.Closed else RaffleStatus.Active)) := by
  constructor
  · intro s s' tl caller rid allowance h
    unfold enterRaffle at h
    split at h
    · exact Except.noConfusion h
    split at h
    · exact Except.noConfusion h
    rename_i hbad
    simp only [] at h
    split at h
    · exact Except.noConfusion h
    rename_i hstatus
    split at h
    · exact Except.noConfusion h
    split at h
    · exact Except.noConfusion h
    split at h
    · exact Except.noConfusion h
    injection h with h
    injection h with h1 h2
    subst h1
    simp only [badRaffleId, CState.nextRaffleId, not_or, not_le] at hbad
    obtain ⟨h0, hlen⟩ := hbad
    have h1 : rid ≤ s.raffles.length := by omega
    refine ⟨not_not.mp (fun hc => hstatus hc), ?_⟩
    rw [getRaffle_balance, getRaffle_setRaffle_self h0 h1]
    by_cases hc : ((getRaffle s rid).raffleType = RaffleType.DonationBased ∧
        (getRaffle s rid).entryLimit ≤ (getRaffle s rid).entryCount + 1) ∨
        ((getRaffle s rid).isPool = true ∧
          (getRaffle s rid).targetAmount ≤
            (getRaffle s rid).totalCollected + (getRaffle s rid).entryCost)
    · rw [if_pos hc]
      simp only []
      rw [if_pos hc]
    · rw [if_neg hc]
      simp only []
      rw [if_neg hc]
      exact not_not.mp (fun hcc => hstatus hcc)
  · intro s s' tl caller rid pa sigOk allowance h
    unfold joinIncentiveRaffle at h
    split at h
    · exact Except.noConfusion h
    split at h
    · exact Except.noConfusion h
    rename_i hbad
    split at h
    · exact Except.noConfusion h
    simp only [] at h
    split at h
    · exact Except.noConfusion h
    rename_i hstatus
    split at h
    · exact Except.noConfusion h
    split at h
    · exact Except.noConfusion h
    rename_i htype
    split at h
    · exact Except.noConfusion h
    split at h
    · exact Except.noConfusion h
    split at h
    · exact Except.noConfusion h
    injection h with h
    injection h with h1 h2
    subst h1
    simp only [badRaffleId, CState.nextRaffleId, not_or, not_le] at hbad
    obtain ⟨h0, hlen⟩ := hbad
    have h1 : rid ≤ s.raffles.length := by omega
    have htype' : (getRaffle s rid).raffleType = .IncentiveBased :=
      not_not.mp htype
    refine ⟨not_not.mp (fun hc => hstatus hc), ?_⟩
    rw [getRaffle_balance, getRaffle_bumpNonce, getRaffle_setRaffle_self h0 h1]
    by_cases hc : (getRaffle s rid).isPool = true ∧
        (getRaffle s rid).targetAmount ≤
          (getRaffle s rid).totalCollected +
            ((getRaffle s rid).entryCost - (getRaffle s rid).incentiveAmount)
    · rw [if_pos hc]
      have hcond : ((getRaffle s rid).raffleType = RaffleType.DonationBased ∧
          (getRaffle s rid).entryLimit ≤ (getRaffle s rid).entryCount + 1) ∨
          ((getRaffle s rid).isPool = true ∧
            (getRaffle s rid).targetAmount ≤
              (getRaffle s rid).totalCollected +
                ((getRaffle s rid).entryCost -
                  (getRaffle s rid).incentiveAmount)) := Or.inr hc
      simp only []
      rw [if_pos hcond]
    · rw [if_neg hc]
      have hncond : ¬ (((getRaffle s rid).raffleType = RaffleType.DonationBased ∧
          (getRaffle s rid).entryLimit ≤ (getRaffle s rid).entryCount + 1) ∨
          ((getRaffle s rid).isPool = true ∧
            (getRaffle s rid).targetAmount ≤
              (getRaffle s rid).totalCollected +
                ((getRaffle s rid).entryCost -
                  (getRaffle s rid).incentiveAmount))) := by
        rintro (⟨hd, _⟩ | hp)
        · rw [htype'] at hd
          exact RaffleType.noConfusion hd
        · exact hc hp
      simp only []
      rw [if_neg hncond]
      exact not_not.mp (fun hcc => hstatus hcc)

/-- C9 witness: the second entry into the concrete DonationBased raffle with
entryLimit 2 closes it (entryCount reaches 2), while the first entry left it
Active. -/
theorem c9_witness :
    ((getRaffle cB2 1).status = .Active ∧
      (getRaffle cB3 1).status =
        (if ((getRaffle cB3 1).raffleType = .DonationBased ∧
              (getRaffle cB3 1).entryLimit ≤ (getRaffle cB3 1).entryCount) ∨
            ((getRaffle cB3 1).isPool = true ∧
              (getRaffle cB3 1).targetAmount ≤ (getRaffle cB3 1).totalCollected)
          then RaffleStatus.Closed else RaffleStatus.Active)) ∧
    (getRaffle cB3 1).status = .Closed ∧ (getRaffle cB2 1).status = .Active :=
  ⟨c9_auto_close.1 cB2 cB3 _ 5 1 100 runB3, by decide, by decide⟩

/-! ## Claim C5: refund eligibility by mode -/

/-- A refund succeeds outright whenever the caller is a member, the raffle is
Active, the mode-specific timing gate is met, and the usual solvency facts
hold; the transfer is exactly the caller's raffle portion. -/
theorem refund_success_aux {s : CState} {caller rid now : Nat}
    (hp : s.paused = false) (hv : ¬ badRaffleId s rid)
    (hm : hasEntered (getRaffle s rid) caller)
    (hact : (getRaffle s rid).status = .Active)
    (hgate : (getRaffle s rid).isPool = true ∨
      (getRaffle s rid).deadline + REFUND_GRACE_PERIOD < now)
    (hia : (getRaffle s rid).raffleType = .IncentiveBased →
      (getRaffle s rid).incentiveAmount < (getRaffle s rid).entryCost)
    (hcnt : (getRaffle s rid).entryCount ≠ 0)
    (htc : perEntryAmount (getRaffle s rid) ≤ (getRaffle s rid).totalCollected)
    (hbalge : perEntryAmount (getRaffle s rid) ≤ s.balance) :
    ∃ s', refund s caller rid now =
      .ok (s', [.tout caller (perEntryAmount (getRaffle s rid))]) := by
  have hg2 : ¬ ((getRaffle s rid).isPool = true ∧
      (getRaffle s rid).status ≠ RaffleStatus.Active) := fun hx => hx.2 hact
  have hg3 : ¬ ((getRaffle s rid).isPool = false ∧
      (getRaffle s rid).status ≠ RaffleStatus.Active) := fun hx => hx.2 hact
  have hg4 : ¬ ((getRaffle s rid).isPool = false ∧
      now ≤ (getRaffle s rid).deadline + REFUND_GRACE_PERIOD) := by
    rintro ⟨hpf, hle⟩
    rcases hgate with hg | hg
    · rw [hg] at hpf; exact Bool.noConfusion hpf
    · omega
  have hg5 : ¬ ((getRaffle s rid).raffleType = RaffleType.IncentiveBased ∧
      (getRaffle s rid).entryCost < (getRaffle s rid).incentiveAmount) := by
    rintro ⟨ht, hlt⟩
    exact absurd hlt (not_lt.mpr (Nat.le_of_lt (hia ht)))
  unfold refund
  rw [if_neg (by simp [hp]), if_neg hv]
  simp only []
  rw [if_neg (not_not_intro hm), if_neg hg2, if_neg hg3, if_neg hg4,
    if_neg hg5, if_neg hcnt]
  rw [show (if (getRaffle s rid).raffleType = RaffleType.IncentiveBased
      then (getRaffle s rid).entryCost - (getRaffle s rid).incentiveAmount
      else (getRaffle s rid).entryCost) = perEntryAmount (getRaffle s rid)
      from rfl]
  rw [if_neg (not_lt.mpr htc)]
  split
  · rename_i hb
    have hb' : s.balance < perEntryAmount (getRaffle s rid) := hb
    omega
  · exact ⟨_, rfl⟩

/-- C5: refund eligibility depends on the raffle mode — a pool raffle
refunds whenever Active regardless of time; a traditional raffle refunds
only when Active and now > deadline + REFUND_GRACE_PERIOD (3600), failing
with GracePeriodNotPassed at any time at or before that bound; and a
successful refund implies the Active status and the mode's timing gate. -/
theorem c5_refund_eligibility {s : CState} (hR : Reachable s)
    {caller rid now : Nat}
    (hp : s.paused = false) (hv : ¬ badRaffleId s rid)
    (hm : hasEntered (getRaffle s rid) caller) :
    ((getRaffle s rid).isPool = true → (getRaffle s rid).status = .Active →
      ∃ s', refund s caller rid now =
        .ok (s', [.tout caller (perEntryAmount (getRaffle s rid))])) ∧
    ((getRaffle s rid).isPool = false → (getRaffle s rid).status = .Active →
      (getRaffle s rid).deadline + REFUND_GRACE_PERIOD < now →
      ∃ s', refund s caller rid now =
        .ok (s', [.tout caller (perEntryAmount (getRaffle s rid))])) ∧
    ((getRaffle s rid).isPool = false → (getRaffle s rid).status = .Active →
      now ≤ (getRaffle s rid).deadline + REFUND_GRACE_PERIOD →
      refund s caller rid now = .error .GracePeriodNotPassed) ∧
    (∀ (s' : CState) (tl : List Transfer),
      refund s caller rid now = .ok (s', tl) →
      (getRaffle s rid).status = .Active ∧
      ((getRaffle s rid).isPool = true ∨
        (getRaffle s rid).deadline + REFUND_GRACE_PERIOD < now)) := by
  obtain ⟨hall, hbal, hreq⟩ := reachable_stateWF hR
  have hvc := hv
  simp only [badRaffleId, CState.nextRaffleId, not_or, not_le] at hvc
  obtain ⟨h0, hlen⟩ := hvc
  have h1 : rid ≤ s.raffles.length := by omega
  obtain ⟨hnd, hcnt, hlive, hfin, hia, hinact⟩ := raffleWF_get hall h0 h1
  have hmm : caller ∈ (getRaffle s rid).members := hm
  have hcnt1 : (getRaffle s rid).entryCount ≠ 0 := by
    rw [hcnt]
    have := List.length_pos.mpr (List.ne_nil_of_mem hmm)
    omega
  have hone : 1 ≤ (getRaffle s rid).entryCount :=
    Nat.one_le_iff_ne_zero.mpr hcnt1
  refine ⟨?_, ?_, ?_, ?_⟩
  · intro hpool hact
    have htc : perEntryAmount (getRaffle s rid) ≤
        (getRaffle s rid).totalCollected := by
      rw [hlive (by rw [hact]; simp)]
      calc perEntryAmount (getRaffle s rid)
          = 1 * perEntryAmount (getRaffle s rid) := (Nat.one_mul _).symm
        _ ≤ (getRaffle s rid).entryCount * perEntryAmount (getRaffle s rid) :=
            Nat.mul_le_mul_right _ hone
    have hbalge : perEntryAmount (getRaffle s rid) ≤ s.balance :=
      le_trans (le_trans htc (collected_le_escrow h0 h1)) hbal
    exact refund_success_aux hp hv hm hact (Or.inl hpool) hia hcnt1 htc hbalge
  · intro hpf hact hnow
    have htc : perEntryAmount (getRaffle s rid) ≤
        (getRaffle s rid).totalCollected := by
      rw [hlive (by rw [hact]; simp)]
      calc perEntryAmount (getRaffle s rid)
          = 1 * perEntryAmount (getRaffle s rid) := (Nat.one_mul _).symm
        _ ≤ (getRaffle s rid).entryCount * perEntryAmount (getRaffle s rid) :=
            Nat.mul_le_mul_right _ hone
    have hbalge : perEntryAmount (getRaffle s rid) ≤ s.balance :=
      le_trans (le_trans htc (collected_le_escrow h0 h1)) hbal
    exact refund_success_aux hp hv hm hact (Or.inr hnow) hia hcnt1 htc hbalge
  · intro hpf hact hnow
    unfold refund
    rw [if_neg (by simp [hp]), if_neg hv]
    simp only []
    rw [if_neg (not_not_intro hm), if_neg (fun hx => hx.2 hact),
      if_neg (fun hx => hx.2 hact), if_pos ⟨hpf, hnow⟩]
  · intro s' tl hok
    unfold refund at hok
    by_cases hxp : s.paused = true
    · rw [if_pos hxp] at hok; exact Except.noConfusion hok
    rw [if_neg hxp, if_neg hv] at hok
    simp only [] at hok
    by_cases hmem2 : ¬ hasEntered (getRaffle s rid) caller
    · rw [if_pos hmem2] at hok; exact Except.noConfusion hok
    rw [if_neg hmem2] at hok
    by_cases hg2 : (getRaffle s rid).isPool = true ∧
        (getRaffle s rid).status ≠ RaffleStatus.Active
    · rw [if_pos hg2] at hok; exact Except.noConfusion hok
    rw [if_neg hg2] at hok
    by_cases hg3 : (getRaffle s rid).isPool = false ∧
        (getRaffle s rid).status ≠ RaffleStatus.Active
    · rw [if_pos hg3] at hok; exact Except.noConfusion hok
    rw [if_neg hg3] at hok
    by_cases hg4 : (getRaffle s rid).isPool = false ∧
        now ≤ (getRaffle s rid).deadline + REFUND_GRACE_PERIOD
    · rw [if_pos hg4] at hok; exact Except.noConfusion hok
    rw [if_neg hg4] at hok
    constructor
    · push_neg at hg2 hg3
      rcases Bool.eq_false_or_eq_true (getRaffle s rid).isPool with hb | hb
      · exact hg2 hb
      · exact hg3 hb
    · rcases Bool.eq_false_or_eq_true (getRaffle s rid).isPool with hb | hb
      · left; exact hb
      · right
        push_neg at hg4
        exact hg4 hb

/-- C5 witness: in the concrete traditional IncentiveBased raffle (deadline
1000), member 4's refund at time 5000 (past deadline + 3600) succeeds with
the raffle portion 80, and every conjunct of the eligibility
characterization holds. -/
theorem c5_witness :
    ((getRaffle cC2 1).isPool = true → (getRaffle cC2 1).status = .Active →
      ∃ s', refund cC2 4 1 5000 =
        .ok (s', [.tout 4 (perEntryAmount (getRaffle cC2 1))])) ∧
    ((getRaffle cC2 1).isPool = false → (getRaffle cC2 1).status = .Active →
      (getRaffle cC2 1).deadline + REFUND_GRACE_PERIOD < 5000 →
      ∃ s', refund cC2 4 1 5000 =
        .ok (s', [.tout 4 (perEntryAmount (getRaffle cC2 1))])) ∧
    ((getRaffle cC2 1).isPool = false → (getRaffle cC2 1).status = .Active →
      5000 ≤ (getRaffle cC2 1).deadline + REFUND_GRACE_PERIOD →
      refund cC2 4 1 5000 = .error .GracePeriodNotPassed) ∧
    (∀ (s' : CState) (tl : List Transfer),
      refund cC2 4 1 5000 = .ok (s', tl) →
      (getRaffle cC2 1).status = .Active ∧
      ((getRaffle cC2 1).isPool = true ∨
        (getRaffle cC2 1).deadline + REFUND_GRACE_PERIOD < 5000)) :=
  c5_refund_eligibility reach_cC2 (by decide) (by decide) (by decide)

/-! ## Claim C2: finalization is permanent -/

/-- A raffle id whose record is Finalized is an allocated index. -/
theorem finalized_in_range {s : CState} {j : Nat} (hj : j ≠ 0)
    (hfin : (getRaffle s j).status = .Finalized) :
    j - 1 < s.raffles.length := by
  by_contra hge
  push_neg at hge
  have hnone : s.raffles[j - 1]? = none := List.getElem?_eq_none (by omega)
  have hdef : getRaffle s j = default := by simp [getRaffle, hj, hnone]
  have hdst : (default : Raffle).status = .Inactive := rfl
  rw [hdef, hdst] at hfin
  exact RaffleStatus.noConfusion hfin

theorem create_keeps_finalized {s s' : CState} {tl : List Transfer}
    {caller : Nat} {rt : RaffleType} {ec ia el dl ta : Nat} {ip : Bool}
    {pa : Nat} {sigOk : Bool} {now : Nat}
    (h : createRaffle s caller rt ec ia el dl ta ip pa sigOk now = .ok (s', tl))
    (j : Nat) (hj : j ≠ 0) (hfin : (getRaffle s j).status = .Finalized) :
    (getRaffle s' j).status = .Finalized := by
  have hlt := finalized_in_range hj hfin
  unfold createRaffle at h
  split at h
  · exact Except.noConfusion h
  split at h
  · exact Except.noConfusion h
  split at h
  · exact Except.noConfusion h
  split at h
  · exact Except.noConfusion h
  split at h
  · exact Except.noConfusion h
  split at h
  · exact Except.noConfusion h
  split at h
  · exact Except.noConfusion h
  split at h
  · exact Except.noConfusion h
  injection h with h
  injection h with h1 h2
  subst h1
  simpa [getRaffle, hj, bumpNonce, List.getElem?_append, hlt] using hfin

theorem enter_keeps_finalized {s s' : CState} {tl : List Transfer}
    {caller rid allowance : Nat}
    (h : enterRaffle s caller rid allowance = .ok (s', tl))
    (j : Nat) (hj : j ≠ 0) (hfin : (getRaffle s j).status = .Finalized) :
    (getRaffle s' j).status = .Finalized := by
  unfold enterRaffle at h
  split at h
  · exact Except.noConfusion h
  split at h
  · exact Except.noConfusion h
  rename_i hbad
  simp only [] at h
  split at h
  · exact Except.noConfusion h
  rename_i hstatus
  split at h
  · exact Except.noConfusion h
  split at h
  · exact Except.noConfusion h
  split at h
  · exact Except.noConfusion h
  injection h with h
  injection h with h1 h2
  subst h1
  simp only [badRaffleId, CState.nextRaffleId, not_or, not_le] at hbad
  obtain ⟨h0, hlen⟩ := hbad
  have hact : (getRaffle s rid).status = .Active := not_not.mp hstatus
  by_cases hji : j = rid
  · rw [hji, hact] at hfin
    exact RaffleStatus.noConfusion hfin
  · have hne : rid - 1 ≠ j - 1 := by omega
    simpa [getRaffle, hj, setRaffle, List.getElem?_set_ne hne] using hfin

theorem join_keeps_finalized {s s' : CState} {tl : List Transfer}
    {caller rid pa : Nat} {sigOk : Bool} {allowance : Nat}
    (h : joinIncentiveRaffle s caller rid pa sigOk allowance = .ok (s', tl))
    (j : Nat) (hj : j ≠ 0) (hfin : (getRaffle s j).status = .Finalized) :
    (getRaffle s' j).status = .Finalized := by
  unfold joinIncentiveRaffle at h
  split at h
  · exact Except.noConfusion h
  split at h
  · exact Except.noConfusion h
  rename_i hbad
  split at h
  · exact Except.noConfusion h
  simp only [] at h
  split at h
  · exact Except.noConfusion h
  rename_i hstatus
  split at h
  · exact Except.noConfusion h
  split at h
  · exact Except.noConfusion h
  split at h
  · exact Except.noConfusion h
  split at h
  · exact Except.noConfusion h
  split at h
  · exact Except.noConfusion h
  injection h with h
  injection h with h1 h2
  subst h1
  simp only [badRaffleId, CState.nextRaffleId, not_or, not_le] at hbad
  obtain ⟨h0, hlen⟩ := hbad
  have hact : (getRaffle s rid).status = .Active := not_not.mp hstatus
  by_cases hji : j = rid
  · rw [hji, hact] at hfin
    exact RaffleStatus.noConfusion hfin
  · have hne : rid - 1 ≠ j - 1 := by omega
    simpa [getRaffle, hj, bumpNonce, setRaffle, List.getElem?_set_ne hne]
      using hfin

theorem refund_keeps_finalized {s s' : CState} {tl : List Transfer}
    {caller rid now : Nat}
    (h : refund s caller rid now = .ok (s', tl))
    (j : Nat) (hj : j ≠ 0) (hfin : (getRaffle s j).status = .Finalized) :
    (getRaffle s' j).status = .Finalized := by
  unfold refund at h
  by_cases hp : s.paused = true
  · rw [if_pos hp] at h; exact Except.noConfusion h
  rw [if_neg hp] at h
  by_cases hbad : badRaffleId s rid
  · rw [if_pos hbad] at h; exact Except.noConfusion h
  rw [if_neg hbad] at h
  simp only [] at h
  by_cases hmem : ¬ hasEntered (getRaffle s rid) caller
  · rw [if_pos hmem] at h; exact Except.noConfusion h
  rw [if_neg hmem] at h
  by_cases hg2 : (getRaffle s rid).isPool = true ∧
      (getRaffle s rid).status ≠ RaffleStatus.Active
  · rw [if_pos hg2] at h; exact Except.noConfusion h
  rw [if_neg hg2] at h
  by_cases hg3 : (getRaffle s rid).isPool = false ∧
      (getRaffle s rid).status ≠ RaffleStatus.Active
  · rw [if_pos hg3] at h; exact Except.noConfusion h
  rw [if_neg hg3] at h
  by_cases hg4 : (getRaffle s rid).isPool = false ∧
      now ≤ (getRaffle s rid).deadline + REFUND_GRACE_PERIOD
  · rw [if_pos hg4] at h; exact Except.noConfusion h
  rw [if_neg hg4] at h
  by_cases hg5 : (getRaffle s rid).raffleType = RaffleType.IncentiveBased ∧
      (getRaffle s rid).entryCost < (getRaffle s rid).incentiveAmount
  · rw [if_pos hg5] at h; exact Except.noConfusion h
  rw [if_neg hg5] at h
  by_cases hcnt0 : (getRaffle s rid).entryCount = 0
  · rw [if_pos hcnt0] at h; exact Except.noConfusion h
  rw [if_neg hcnt0] at h
  have hact : (getRaffle s rid).status = .Active := by
    push_neg at hg2 hg3
    rcases Bool.eq_false_or_eq_true (getRaffle s rid).isPool with hb | hb
    · exact hg2 hb
    · exact hg3 hb
  simp only [badRaffleId, CState.nextRaffleId, not_or, not_le] at hbad
  obtain ⟨h0, hlen⟩ := hbad
  by_cases hji : j = rid
  · rw [hji, hact] at hfin
    exact RaffleStatus.noConfusion hfin
  have hne : rid - 1 ≠ j - 1 := by omega
  split at h
  · split at h
    · exact Except.noConfusion h
    split at h
    · exact Except.noConfusion h
    injection h with h
    injection h with h1 h2
    subst h1
    simpa [getRaffle, hj, setRaffle, List.getElem?_set_ne hne] using hfin
  · split at h
    · exact Except.noConfusion h
    split at h
    · exact Except.noConfusion h
    injection h with h
    injection h with h1 h2
    subst h1
    simpa [getRaffle, hj, setRaffle, List.getElem?_set_ne hne] using hfin

theorem end_keeps_finalized {s s' : CState} {tl : List Transfer}
    {caller rid : Nat} {sigOk : Bool} {now : Nat}
    (h : endRaffle s caller rid sigOk now = .ok (s', tl))
    (j : Nat) (hj : j ≠ 0) (hfin : (getRaffle s j).status = .Finalized) :
    (getRaffle s' j).status = .Finalized := by
  unfold endRaffle at h
  split at h
  · exact Except.noConfusion h
  split at h
  · exact Except.noConfusion h
  rename_i hbad
  simp only [] at h
  split at h
  · exact Except.noConfusion h
  rename_i hstA
  split at h
  · exact Except.noConfusion h
  split at h
  · exact Except.noConfusion h
  split at h
  · exact Except.noConfusion h
  split at h
  · exact Except.noConfusion h
  simp only [badRaffleId, CState.nextRaffleId, not_or, not_le] at hbad
  obtain ⟨h0, hlen⟩ := hbad
  by_cases hji : j = rid
  · exfalso
    rw [hji] at hfin
    have hsac : (getRaffle s rid).status = .Active ∨
        (getRaffle s rid).status = .Closed := by
      by_contra hc
      push_neg at hc
      exact hstA ⟨hc.1, hc.2⟩
    rcases hsac with hx | hx <;> rw [hfin] at hx <;>
      exact RaffleStatus.noConfusion hx
  have hne : rid - 1 ≠ j - 1 := by omega
  set s1 := if caller = (getRaffle s rid).organizer
    then bumpNonce s caller else s with hs1
  have hr1 : s1.raffles = s.raffles := by
    rw [hs1]; split <;> rfl
  split at h
  · -- pool: finalizePoolRaffle
    unfold finalizePoolRaffle at h
    simp only [] at h
    split at h
    · split at h
      · exact Except.noConfusion h
      injection h with h
      injection h with h1 h2
      subst h1
      simpa [getRaffle, hj, setRaffle, hr1, List.getElem?_set_ne hne]
        using hfin
    · injection h with h
      injection h with h1 h2
      subst h1
      simpa [getRaffle, hj, setRaffle, hr1, List.getElem?_set_ne hne]
        using hfin
  · -- traditional: requestVRF
    injection h with h
    have hfst : (requestVRF s1 rid).1 = s' := congrArg Prod.fst h
    rw [← hfst]
    unfold requestVRF
    simp only []
    split
    · simpa [getRaffle, hj, setRaffle, hr1, List.getElem?_set_ne hne]
        using hfin
    · simpa [getRaffle, hj, setRaffle, hr1, List.getElem?_set_ne hne]
        using hfin

theorem fulfill_keeps_finalized {s s' : CState} {tl : List Transfer}
    {reqId rword : Nat}
    (h : fulfillRandomWords s reqId rword = .ok (s', tl))
    (j : Nat) (hj : j ≠ 0) (hfin : (getRaffle s j).status = .Finalized) :
    (getRaffle s' j).status = .Finalized := by
  unfold fulfillRandomWords at h
  simp only [] at h
  split at h
  · exact Except.noConfusion h
  rename_i hne0
  split at h
  · injection h with h
    injection h with h1 h2
    subst h1
    exact hfin
  split at h
  · exact Except.noConfusion h
  rename_i hawait
  split at h
  · exact Except.noConfusion h
  have hstat : (getRaffle s (lookupReq s reqId).raffleId).status =
      .AwaitingVRF := not_not.mp hawait
  by_cases hji : j = (lookupReq s reqId).raffleId
  · exfalso
    rw [hji, hstat] at hfin
    exact RaffleStatus.noConfusion hfin
  have hne : (lookupReq s reqId).raffleId - 1 ≠ j - 1 := by omega
  split at h
  · split at h
    · exact Except.noConfusion h
    injection h with h
    injection h with h1 h2
    subst h1
    simpa [getRaffle, hj, setRaffle, List.getElem?_set_ne hne] using hfin
  · injection h with h
    injection h with h1 h2
    subst h1
    simpa [getRaffle, hj, setRaffle, List.getElem?_set_ne hne] using hfin

/-- No successful operation moves any raffle out of Finalized. -/
theorem step_keeps_finalized {s s' : CState} (hstep : Step s s') (j : Nat)
    (hj : j ≠ 0) (hfin : (getRaffle s j).status = .Finalized) :
    (getRaffle s' j).status = .Finalized := by
  cases hstep with
  | create _ _ _ _ _ _ _ _ _ _ _ hop => exact create_keeps_finalized hop j hj hfin
  | enter _ _ _ hop => exact enter_keeps_finalized hop j hj hfin
  | join _ _ _ _ _ hop => exact join_keeps_finalized hop j hj hfin
  | refundStep _ _ _ hop => exact refund_keeps_finalized hop j hj hfin
  | endStep _ _ _ _ hop => exact end_keeps_finalized hop j hj hfin
  | fulfill _ _ hop => exact fulfill_keeps_finalized hop j hj hfin
  | pauseStep _ hop =>
      unfold pause at hop
      split at hop
      · exact Except.noConfusion hop
      injection hop with h1
      subst h1
      exact hfin
  | unpauseStep _ hop =>
      unfold unpause at hop
      split at hop
      · exact Except.noConfusion hop
      injection hop with h1
      subst h1
      exact hfin
  | updateSigner _ _ hop =>
      unfold updateAppServerSigner at hop
      split at hop
      · exact Except.noConfusion hop
      split at hop
      · exact Except.noConfusion hop
      injection hop with h1
      subst h1
      exact hfin
  | donate amt => exact hfin

theorem endRaffle_finalized_reverts {s : CState} {caller rid : Nat}
    {sigOk : Bool} {now : Nat}
    (hp : s.paused = false) (hv : ¬ badRaffleId s rid)
    (hfin : (getRaffle s rid).status = .Finalized) :
    endRaffle s caller rid sigOk now = .error .RaffleNotActive := by
  unfold endRaffle
  rw [if_neg (by simp [hp]), if_neg hv]
  simp only []
  rw [if_pos ⟨by rw [hfin]; exact fun hc => RaffleStatus.noConfusion hc,
    by rw [hfin]; exact fun hc => RaffleStatus.noConfusion hc⟩]

theorem fulfill_on_finalized_noop {s : CState} (hR : Reachable s)
    {reqId rword : Nat}
    (hne0 : (lookupReq s reqId).raffleId ≠ 0)
    (hfin : (getRaffle s (lookupReq s reqId).raffleId).status = .Finalized) :
    fulfillRandomWords s reqId rword = .ok (s, []) := by
  obtain ⟨hall, hbal, hreq⟩ := reachable_stateWF hR
  have hlk : s.vrfRequests.lookup reqId = some (lookupReq s reqId) := by
    rcases hcase : s.vrfRequests.lookup reqId with _ | v
    · exfalso
      apply hne0
      simp [lookupReq, hcase]
    · simp [lookupReq, hcase]
  obtain ⟨ha0, hale, hcful⟩ := hreq reqId _ hlk
  have hful : (lookupReq s reqId).fulfilled = true := by
    rcases Bool.eq_false_or_eq_true (lookupReq s reqId).fulfilled with hx | hx
    · exact hx
    · exfalso
      obtain ⟨hA, _⟩ := hcful hx
      rw [hfin] at hA
      exact RaffleStatus.noConfusion hA
  exact fulfill_noop hne0 hful

/-- C2 (counterexample): the claim that delivering a fulfillment whose
request correlates to a Finalized raffle "fails" is false: in the reachable
state where the traditional raffle was finalized by its VRF callback, the
request still correlates to raffle 1 (now Finalized), and delivering the
fulfillment again returns success (a silent no-op), not a failure. -/
theorem c2_counterexample :
    Reachable cB5 ∧ (getRaffle cB5 1).status = .Finalized ∧
    (lookupReq cB5 1).raffleId = 1 ∧
    fulfillRandomWords cB5 1 7 = .ok (cB5, []) :=
  ⟨reach_cB5, by decide, by decide, rfl⟩

/-- C2 (amended): endRaffle on a Finalized raffle reverts with
RaffleNotActive; delivering a randomness fulfillment whose request
correlates to a Finalized raffle is a silent no-op (returns successfully
with the state unchanged, tolerating duplicate delivery) rather than a
failure; and finalization is permanent — no successful operation moves any
raffle out of Finalized. -/
theorem c2_amended :
    (∀ (s : CState) (caller rid : Nat) (sigOk : Bool) (now : Nat),
      s.paused = false → ¬ badRaffleId s rid →
      (getRaffle s rid).status = .Finalized →
      endRaffle s caller rid sigOk now = .error .RaffleNotActive) ∧
    (∀ (s : CState) (reqId rword : Nat), Reachable s →
      (lookupReq s reqId).raffleId ≠ 0 →
      (getRaffle s (lookupReq s reqId).raffleId).status = .Finalized →
      fulfillRandomWords s reqId rword = .ok (s, [])) ∧
    (∀ (s s' : CState) (j : Nat), Step s s' → j ≠ 0 →
      (getRaffle s j).status = .Finalized →
      (getRaffle s' j).status = .Finalized) :=
  ⟨fun _ _ _ _ _ hp hv hfin => endRaffle_finalized_reverts hp hv hfin,
   fun _ _ _ hR hne0 hfin => fulfill_on_finalized_noop hR hne0 hfin,
   fun _ _ j hstep hj hfin => step_keeps_finalized hstep j hj hfin⟩

/-- C2 witness: on the concrete finalized raffle, endRaffle reverts with
RaffleNotActive, re-delivering the fulfillment is a silent no-op, and a
further step (a direct token donation) leaves the raffle Finalized. -/
theorem c2_amended_witness :
    endRaffle cB5 2 1 false 10 = .error .RaffleNotActive ∧
    fulfillRandomWords cB5 1 7 = .ok (cB5, []) ∧
    (getRaffle { cB5 with balance := cB5.balance + 5 } 1).status = .Finalized :=
  ⟨c2_amended.1 cB5 2 1 false 10 (by decide) (by decide) (by decide),
   c2_amended.2.1 cB5 1 7 reach_cB5 (by decide) (by decide),
   c2_amended.2.2 cB5 _ 1 (Step.donate 5) (by decide) (by decide)⟩

/-! ## Claim C6: endRaffle authorization and timing gates -/

theorem endRaffle_success_aux {s : CState} (hR : Reachable s)
    {caller rid : Nat} {sigOk : Bool} {now : Nat}
    (hp : s.paused = false) (h0 : rid ≠ 0) (h1 : rid ≤ s.raffles.length)
    (hsac : (getRaffle s rid).status = .Active ∨
      (getRaffle s rid).status = .Closed)
    (h4n : ¬(caller ≠ s.appServerSigner ∧
      caller ≠ (getRaffle s rid).organizer))
    (h5n : ¬(caller ≠ s.appServerSigner ∧ (getRaffle s rid).isPool = true ∧
      (getRaffle s rid).totalCollected < (getRaffle s rid).targetAmount ∧
      now < (getRaffle s rid).deadline))
    (h6n : ¬(caller ≠ s.appServerSigner ∧ (getRaffle s rid).isPool = false ∧
      now < (getRaffle s rid).deadline))
    (h7n : ¬(caller = (getRaffle s rid).organizer ∧ sigOk = false)) :
    ∃ s' tl, endRaffle s caller rid sigOk now = .ok (s', tl) := by
  obtain ⟨hall, hbal, hreq⟩ := reachable_stateWF hR
  have hnp : ¬ s.paused = true := by rw [hp]; exact Bool.false_ne_true
  have hnbad : ¬ badRaffleId s rid := by
    simp only [badRaffleId, CState.nextRaffleId, not_or, not_le]
    exact ⟨h0, by omega⟩
  have h3n : ¬((getRaffle s rid).status ≠ .Active ∧
      (getRaffle s rid).status ≠ .Closed) := by
    rcases hsac with h | h
    · exact fun hc => hc.1 h
    · exact fun hc => hc.2 h
  unfold endRaffle
  simp only []
  rw [if_neg hnp, if_neg hnbad, if_neg h3n, if_neg h4n, if_neg h5n,
    if_neg h6n, if_neg h7n]
  set s1 := if caller = (getRaffle s rid).organizer
    then bumpNonce s caller else s with hs1
  have hr1 : s1.raffles = s.raffles := by rw [hs1]; split <;> rfl
  have hb1 : s1.balance = s.balance := by rw [hs1]; split <;> rfl
  have hg1 : getRaffle s1 rid = getRaffle s rid := getRaffle_congr hr1 rid
  by_cases hpool : (getRaffle s rid).isPool = true
  · rw [if_pos hpool]
    unfold finalizePoolRaffle
    simp only []
    by_cases hz : 0 < (getRaffle s1 rid).totalCollected
    · rw [if_pos hz]
      have hle : (getRaffle s rid).totalCollected ≤ s.balance :=
        le_trans (collected_le_escrow h0 h1) hbal
      have hb2 : (setRaffle s1 rid (poolFinalUpdate (getRaffle s1 rid))).balance
          = s1.balance := rfl
      have hnlt : ¬((setRaffle s1 rid (poolFinalUpdate (getRaffle s1 rid))).balance
          < (getRaffle s1 rid).totalCollected) := by
        rw [hb2, hb1, hg1]; omega
      rw [if_neg hnlt]
      exact ⟨_, _, rfl⟩
    · rw [if_neg hz]
      exact ⟨_, _, rfl⟩
  · rw [if_neg hpool]
    exact ⟨(requestVRF s1 rid).1, (requestVRF s1 rid).2, rfl⟩

/-- C6 counterexample: the claim says the App Server role ends a raffle
unconditionally, with no countersignature.  But the countersignature check
fires whenever the caller is the organizer, even when that same address is
the App Server signer: in the reachable state cD1 address 2 is both, and
endRaffle by address 2 without a countersignature reverts with
InvalidSignature instead of succeeding. -/
theorem c6_counterexample :
    Reachable cD1 ∧ cD1.appServerSigner = 2 ∧
    (getRaffle cD1 1).organizer = 2 ∧
    (getRaffle cD1 1).status = .Active ∧
    endRaffle cD1 2 1 false 10 = .error .InvalidSignature :=
  ⟨reach_cD1, rfl, rfl, rfl, rfl⟩

/-- C6 (amended): for every reachable unpaused state and valid raffle id with
status Active or Closed: (1) the App Server signer, when it is not the
raffle's organizer, ends the raffle unconditionally; (2) a caller that is
neither role gets InvalidSigner; (3) an organizer who is not the App Server
gets CannotEndPoolEarly on a pool raffle before target and deadline, and
(4) DeadlineNotPassed on a traditional raffle before the deadline; (5) an
organizer past the timing gates (or who is also the App Server signer, which
bypasses them) is decided by the countersignature: absent it the call
reverts with InvalidSignature — even for the App Server itself — and with it
the call succeeds. -/
theorem c6_amended :
    ∀ (s : CState), Reachable s → ∀ (caller rid : Nat) (sigOk : Bool) (now : Nat),
    s.paused = false → rid ≠ 0 → rid ≤ s.raffles.length →
    ((getRaffle s rid).status = .Active ∨ (getRaffle s rid).status = .Closed) →
    (caller = s.appServerSigner → caller ≠ (getRaffle s rid).organizer →
      ∃ s' tl, endRaffle s caller rid sigOk now = .ok (s', tl)) ∧
    (caller ≠ s.appServerSigner → caller ≠ (getRaffle s rid).organizer →
      endRaffle s caller rid sigOk now = .error .InvalidSigner) ∧
    (caller ≠ s.appServerSigner → caller = (getRaffle s rid).organizer →
      (getRaffle s rid).isPool = true →
      (getRaffle s rid).totalCollected < (getRaffle s rid).targetAmount →
      now < (getRaffle s rid).deadline →
      endRaffle s caller rid sigOk now = .error .CannotEndPoolEarly) ∧
    (caller ≠ s.appServerSigner → caller = (getRaffle s rid).organizer →
      (getRaffle s rid).isPool = false → now < (getRaffle s rid).deadline →
      endRaffle s caller rid sigOk now = .error .DeadlineNotPassed) ∧
    (caller = (getRaffle s rid).organizer →
      ((getRaffle s rid).isPool = true →
        (getRaffle s rid).targetAmount ≤ (getRaffle s rid).totalCollected ∨
        (getRaffle s rid).deadline ≤ now ∨ caller = s.appServerSigner) →
      ((getRaffle s rid).isPool = false →
        (getRaffle s rid).deadline ≤ now ∨ caller = s.appServerSigner) →
      (sigOk = false →
        endRaffle s caller rid sigOk now = .error .InvalidSignature) ∧
      (sigOk = true →
        ∃ s' tl, endRaffle s caller rid sigOk now = .ok (s', tl))) := by
  intro s hR caller rid sigOk now hp h0 h1 hsac
  have hnp : ¬ s.paused = true := by rw [hp]; exact Bool.false_ne_true
  have hnbad : ¬ badRaffleId s rid := by
    simp only [badRaffleId, CState.nextRaffleId, not_or, not_le]
    exact ⟨h0, by omega⟩
  have h3n : ¬((getRaffle s rid).status ≠ .Active ∧
      (getRaffle s rid).status ≠ .Closed) := by
    rcases hsac with h | h
    · exact fun hc => hc.1 h
    · exact fun hc => hc.2 h
  refine ⟨?_, ?_, ?_, ?_, ?_⟩
  · intro ha hno
    exact endRaffle_success_aux hR hp h0 h1 hsac
      (fun hc => hc.1 ha) (fun hc => hc.1 ha) (fun hc => hc.1 ha)
      (fun hc => hno hc.1)
  · intro hna hno
    unfold endRaffle
    simp only []
    rw [if_neg hnp, if_neg hnbad, if_neg h3n, if_pos ⟨hna, hno⟩]
  · intro hna ho hpool hclt hnow
    have h4n : ¬(caller ≠ s.appServerSigner ∧
        caller ≠ (getRaffle s rid).organizer) := fun hc => hc.2 ho
    unfold endRaffle
    simp only []
    rw [if_neg hnp, if_neg hnbad, if_neg h3n, if_neg h4n,
      if_pos ⟨hna, hpool, hclt, hnow⟩]
  · intro hna ho hpf hnow
    have h4n : ¬(caller ≠ s.appServerSigner ∧
        caller ≠ (getRaffle s rid).organizer) := fun hc => hc.2 ho
    have h5n : ¬(caller ≠ s.appServerSigner ∧ (getRaffle s rid).isPool = true ∧
        (getRaffle s rid).totalCollected < (getRaffle s rid).targetAmount ∧
        now < (getRaffle s rid).deadline) :=
      fun hc => by rw [hpf] at hc; exact Bool.noConfusion hc.2.1
    unfold endRaffle
    simp only []
    rw [if_neg hnp, if_neg hnbad, if_neg h3n, if_neg h4n, if_neg h5n,
      if_pos ⟨hna, hpf, hnow⟩]
  · intro ho htp htt
    have h4n : ¬(caller ≠ s.appServerSigner ∧
        caller ≠ (getRaffle s rid).organizer) := fun hc => hc.2 ho
    have h5n : ¬(caller ≠ s.appServerSigner ∧ (getRaffle s rid).isPool = true ∧
        (getRaffle s rid).totalCollected < (getRaffle s rid).targetAmount ∧
        now < (getRaffle s rid).deadline) := by
      rintro ⟨hna, hpl, hclt, hnow⟩
      rcases htp hpl with h | h | h
      · omega
      · omega
      · exact hna h
    have h6n : ¬(caller ≠ s.appServerSigner ∧ (getRaffle s rid).isPool = false ∧
        now < (getRaffle s rid).deadline) := by
      rintro ⟨hna, hpf, hnow⟩
      rcases htt hpf with h | h
      · omega
      · exact hna h
    constructor
    · intro hsf
      unfold endRaffle
      simp only []
      rw [if_neg hnp, if_neg hnbad, if_neg h3n, if_neg h4n, if_neg h5n,
        if_neg h6n, if_pos ⟨ho, hsf⟩]
    · intro hst
      exact endRaffle_success_aux hR hp h0 h1 hsac h4n h5n h6n
        (fun hc => by rw [hst] at hc; exact Bool.noConfusion hc.2)

/-- C6 witness: in the concrete pool state cA2 (organizer 3, App Server
signer 2, deadline and target not yet reached) the App Server ends the
raffle with no countersignature, and an unrelated address 5 is rejected
with InvalidSigner. -/
theorem c6_amended_witness :
    (∃ s' tl, endRaffle cA2 2 1 false 10 = .ok (s', tl)) ∧
    endRaffle cA2 5 1 false 10 = .error .InvalidSigner :=
  ⟨(c6_amended cA2 reach_cA2 2 1 false 10 rfl (by decide) (by decide)
      (Or.inl (by decide))).1 rfl (by decide),
   (c6_amended cA2 reach_cA2 5 1 false 10 rfl (by decide) (by decide)
      (Or.inl (by decide))).2.1 (by decide) (by decide)⟩

/-! ## Claim C4: every finalization path zeroes the escrow before paying -/

/-- C4: the two state updates applied before any prize transfer
(`poolFinalUpdate` in `_finalizePoolRaffle`, `vrfFinalUpdate` in
`fulfillRandomWords` — by construction the transfer in those functions is
issued against the already-updated state) leave totalCollected = 0 and
status = Finalized; a successful endRaffle that finalizes (pool mode, or a
traditional raffle with no entries) leaves the raffle with
totalCollected = 0 and status Finalized; and a successful first VRF
fulfillment does the same. -/
theorem c4_finalization_zeroes :
    (∀ r : Raffle, (poolFinalUpdate r).totalCollected = 0 ∧
      (poolFinalUpdate r).status = .Finalized) ∧
    (∀ (r : Raffle) (w : Nat), (vrfFinalUpdate r w).totalCollected = 0 ∧
      (vrfFinalUpdate r w).status = .Finalized) ∧
    (∀ (s : CState), Reachable s → ∀ (caller rid : Nat) (sigOk : Bool)
        (now : Nat) (s' : CState) (tl : List Transfer),
      endRaffle s caller rid sigOk now = .ok (s', tl) →
      ((getRaffle s rid).isPool = true ∨ (getRaffle s rid).entryCount = 0) →
      (getRaffle s' rid).totalCollected = 0 ∧
      (getRaffle s' rid).status = .Finalized) ∧
    (∀ (s : CState) (reqId rword : Nat) (s' : CState) (tl : List Transfer),
      fulfillRandomWords s reqId rword = .ok (s', tl) →
      (lookupReq s reqId).fulfilled = false →
      (getRaffle s' (lookupReq s reqId).raffleId).totalCollected = 0 ∧
      (getRaffle s' (lookupReq s reqId).raffleId).status = .Finalized) := by
  refine ⟨fun r => ⟨rfl, rfl⟩, fun r w => ⟨rfl, rfl⟩, ?_, ?_⟩
  · intro s hR caller rid sigOk now s' tl h hdisj
    obtain ⟨hall, hbal, hreq⟩ := reachable_stateWF hR
    unfold endRaffle at h
    split at h
    · exact Except.noConfusion h
    split at h
    · exact Except.noConfusion h
    rename_i hbad
    simp only [] at h
    split at h
    · exact Except.noConfusion h
    rename_i hstA
    split at h
    · exact Except.noConfusion h
    split at h
    · exact Except.noConfusion h
    split at h
    · exact Except.noConfusion h
    split at h
    · exact Except.noConfusion h
    simp only [badRaffleId, CState.nextRaffleId, not_or, not_le] at hbad
    obtain ⟨h0, hlen⟩ := hbad
    have h1 : rid ≤ s.raffles.length := by omega
    have hsac : (getRaffle s rid).status = .Active ∨
        (getRaffle s rid).status = .Closed := by
      by_contra hc
      push_neg at hc
      exact hstA ⟨hc.1, hc.2⟩
    set s1 := if caller = (getRaffle s rid).organizer
      then bumpNonce s caller else s with hs1
    have hr1 : s1.raffles = s.raffles := by
      rw [hs1]; split <;> rfl
    have hg1 : getRaffle s1 rid = getRaffle s rid := getRaffle_congr hr1 rid
    have h1' : rid ≤ s1.raffles.length := by rw [hr1]; exact h1
    split at h
    · -- pool: _finalizePoolRaffle zeroes and finalizes
      unfold finalizePoolRaffle at h
      simp only [] at h
      split at h
      · split at h
        · exact Except.noConfusion h
        injection h with h
        injection h with h1x h2x
        subst h1x
        rw [getRaffle_balance, getRaffle_setRaffle_self h0 h1']
        exact ⟨rfl, rfl⟩
      · injection h with h
        injection h with h1x h2x
        subst h1x
        rw [getRaffle_setRaffle_self h0 h1']
        exact ⟨rfl, rfl⟩
    · -- traditional with zero entries: _requestVRF finalizes immediately
      rename_i hpoolF
      have hcnt0 : (getRaffle s rid).entryCount = 0 := by
        rcases hdisj with hp | hc
        · exact absurd hp hpoolF
        · exact hc
      obtain ⟨hnd, hcnt, hlive, hfin, hia, hinact⟩ := raffleWF_get hall h0 h1
      have htc0 : (getRaffle s rid).totalCollected = 0 := by
        have hnfin : (getRaffle s rid).status ≠ .Finalized := by
          rcases hsac with hx | hx <;> rw [hx] <;> simp
        rw [hlive hnfin, hcnt0]
        simp
      injection h with h
      have hfst : (requestVRF s1 rid).1 = s' := congrArg Prod.fst h
      rw [← hfst]
      unfold requestVRF
      simp only []
      have hcnt1 : (getRaffle s1 rid).entryCount = 0 := by
        rw [hg1]; exact hcnt0
      rw [if_pos hcnt1]
      rw [getRaffle_setRaffle_self h0 h1']
      constructor
      · show (getRaffle s1 rid).totalCollected = 0
        rw [hg1]; exact htc0
      · rfl
  · intro s reqId rword s' tl h hfirst
    unfold fulfillRandomWords at h
    simp only [] at h
    split at h
    · exact Except.noConfusion h
    rename_i hne0
    split at h
    · rename_i hful
      rw [hfirst] at hful
      exact Bool.noConfusion hful
    split at h
    · exact Except.noConfusion h
    rename_i hawait
    split at h
    · exact Except.noConfusion h
    have hstat : (getRaffle s (lookupReq s reqId).raffleId).status =
        .AwaitingVRF := not_not.mp hawait
    have hlt : (lookupReq s reqId).raffleId ≤ s.raffles.length := by
      by_contra hgt
      push_neg at hgt
      have hnone : s.raffles[(lookupReq s reqId).raffleId - 1]? = none :=
        List.getElem?_eq_none (by omega)
      have hdef : getRaffle s (lookupReq s reqId).raffleId = default := by
        simp [getRaffle, hne0, hnone]
      have hdst : (default : Raffle).status = .Inactive := rfl
      rw [hdef, hdst] at hstat
      exact RaffleStatus.noConfusion hstat
    set s1 : CState := { s with vrfRequests :=
      (reqId, ⟨(lookupReq s reqId).raffleId, true⟩) :: s.vrfRequests } with hs1
    have hlt1 : (lookupReq s reqId).raffleId ≤ s1.raffles.length := hlt
    split at h
    · split at h
      · exact Except.noConfusion h
      injection h with h
      injection h with h1x h2x
      subst h1x
      rw [getRaffle_balance, getRaffle_setRaffle_self hne0 hlt1]
      exact ⟨rfl, rfl⟩
    · injection h with h
      injection h with h1x h2x
      subst h1x
      rw [getRaffle_setRaffle_self hne0 hlt1]
      exact ⟨rfl, rfl⟩

/-- C4 witness: ending the concrete pool raffle leaves its escrow at 0 and
status Finalized, and the first VRF fulfillment of the concrete traditional
raffle does the same. -/
theorem c4_witness :
    ((getRaffle cA3 1).totalCollected = 0 ∧
      (getRaffle cA3 1).status = .Finalized) ∧
    ((getRaffle cB5 (lookupReq cB4 1).raffleId).totalCollected = 0 ∧
      (getRaffle cB5 (lookupReq cB4 1).raffleId).status = .Finalized) :=
  ⟨c4_finalization_zeroes.2.2.1 cA2 reach_cA2 2 1 false 10 cA3 _ runA3
      (Or.inl (by decide)),
   c4_finalization_zeroes.2.2.2 cB4 1 7 cB5 _ runB5 (by decide)⟩

end Encore
